import Mathlib

/-!
Verification of the storia.ro listing scraper (`scraping2.py`).

The pure helper functions of the source (`clean_text`, `listing_id_from_link`,
`extract_sector`, `parse_rooms_area_from_text`, `looks_like_listing_link`,
`normalize_link`, ...) are embedded directly as Lean functions on `List Char`
(Python strings).  Regular-expression searches are embedded as left-to-right
scans that reproduce the engine's leftmost-match semantics (backtracking is
resolved statically for each concrete pattern; see the comments at the
corresponding definitions).

The rendered DOM is an external capability in the source (Playwright).  A
listing card is embedded as a structure carrying the answers the rendered
element would give to `query_selector`, `query_selector_all` and
`inner_text`; a detail-page interaction is embedded as a small world
structure recording whether navigation succeeds and what the two detail
extraction phases would yield (or that they raise).  The stateful scraping
loops (`scrape_page`, `run`) become explicit state-passing folds; the
retry/backoff and pacing sleeps of `run` are recorded in an event trace.
-/

/-- Python strings are embedded as lists of characters. -/
abbrev Str := List Char

/-- Python regex `\s` (ASCII part): the whitespace classes recognised by
`str.strip()` and `re.sub(r"\s+", ...)`. -/
def pySpace (c : Char) : Bool :=
  c = ' ' || c = '\t' || c = '\n' || c = '\r' || c = '\x0b' || c = '\x0c'

/-- Python `str.strip()`: remove trailing then leading whitespace. -/
def pyStrip (l : Str) : Str :=
  ((l.reverse.dropWhile pySpace).reverse).dropWhile pySpace

/-- Python `re.sub(r"\s+", " ", s)`: every maximal run of whitespace is
replaced by a single space (scanned left to right with one character of
lookahead, so the recursion is structural). -/
def collapseWS : List Char → List Char
  | [] => []
  | [c] => if pySpace c then [' '] else [c]
  | c1 :: c2 :: rest =>
    if pySpace c1 then
      if pySpace c2 then collapseWS (c2 :: rest)
      else ' ' :: collapseWS (c2 :: rest)
    else c1 :: collapseWS (c2 :: rest)

/-- Source `clean_text` (scraping2.py lines 36-41): `None`/empty input gives
`None`; otherwise strip, collapse whitespace runs to single spaces, and turn
an empty result into `None` (`return s or None`). -/
def clean_text (s : Option Str) : Option Str :=
  match s with
  | none => none
  | some s0 =>
    if s0 = [] then none
    else
      let s1 := pyStrip s0
      let s2 := collapseWS s1
      if s2 = [] then none else some s2

/-- Source `parse_price_raw` (line 43-44): identical to `clean_text`. -/
def parse_price_raw (s : Option Str) : Option Str := clean_text s

/-- Truthiness of an optional string in Python (`if v:`). -/
def truthyStr (o : Option Str) : Bool :=
  match o with
  | some s => !s.isEmpty
  | none => false

/-- Boundary characters of a cleaned string are not whitespace. -/
def noEdgeWS (l : Str) : Bool :=
  (match l.head? with
   | some c => !pySpace c
   | none => true) &&
  (match l.getLast? with
   | some c => !pySpace c
   | none => true)

/-- No two adjacent whitespace characters (no whitespace run longer than 1). -/
def noWSRun : Str → Bool
  | [] => true
  | [_] => true
  | a :: b :: r => !(pySpace a && pySpace b) && noWSRun (b :: r)

/-- Every whitespace character is a plain space. -/
def wsIsSpace (l : Str) : Bool := l.all (fun c => !pySpace c || c = ' ')

/- ### `listing_id_from_link` (source lines 46-56) -/

/-- Search for the leftmost match of the regex `-(\d+)\.html` and return its
digit group.  For this pattern the regex engine's backtracking never
succeeds after the greedy `\d+` (shrinking the digit run leaves a digit
where `.` is required), so the leftmost match is: the first `-` followed by
a nonempty maximal digit run followed immediately by the literal `.html`. -/
def findDashIdHtml : Str → Option Str
  | [] => none
  | c :: rest =>
    if c = '-' ∧ rest.takeWhile Char.isDigit ≠ [] ∧
        ( ".html".data).isPrefixOf (rest.dropWhile Char.isDigit) then
      some (rest.takeWhile Char.isDigit)
    else findDashIdHtml rest

/-- Search for the leftmost match of the regex `[?&]id=(\d+)` and return its
digit group (the maximal digit run after the first `?id=`/`&id=`). -/
def findIdParam : Str → Option Str
  | [] => none
  | c :: rest =>
    if (c = '?' ∨ c = '&') ∧ ( "id=".data).isPrefixOf rest ∧
        (rest.drop 3).takeWhile Char.isDigit ≠ [] then
      some ((rest.drop 3).takeWhile Char.isDigit)
    else findIdParam rest

/-- Python `link.rstrip( "/")`. -/
def rstripSlash (l : Str) : Str := (l.reverse.dropWhile (fun c => c == '/')).reverse

/-- Python `link.rstrip( "/").split( "/")[-1]`: the (possibly empty) suffix
after the last `/` of the rstripped string. -/
def lastSegment (l : Str) : Str :=
  ((rstripSlash l).reverse.takeWhile (fun c => c != '/')).reverse

/-- Source `listing_id_from_link` (lines 46-56): the `-(\d+)\.html` group,
else the `[?&]id=(\d+)` group, else the last path segment truncated to 80
characters; falsy (`None` or empty) input gives `None`. -/
def listing_id_from_link (link : Option Str) : Option Str :=
  match link with
  | none => none
  | some l =>
    if l = [] then none
    else
      match findDashIdHtml l with
      | some ds => some ds
      | none =>
        match findIdParam l with
        | some ds => some ds
        | none => some ((lastSegment l).take 80)

/- ### `extract_sector` (source lines 58-62) -/

/-- One attempted match of the regex `sector(?:ul)?\s*(\d)` at the start of
`l` (already lowercased).  Greedily taking the optional `ul` is complete:
if `ul` is present but the rest fails, the backtracked alternative must
match `\s*\d` starting at `u`, which is impossible. -/
def sectorMatchAt (l : Str) : Option Char :=
  if ( "sector".data).isPrefixOf l then
    let a := l.drop 6
    let a2 := if ( "ul".data).isPrefixOf a then a.drop 2 else a
    match (a2.dropWhile pySpace).head? with
    | some c => if c.isDigit then some c else none
    | none => none
  else none

/-- Leftmost match of `sector(?:ul)?\s*(\d)`. -/
def findSectorDigit : Str → Option Char
  | [] => none
  | c :: rest =>
    match sectorMatchAt (c :: rest) with
    | some d => some d
    | none => findSectorDigit rest

/-- Source `extract_sector` (lines 58-62): search the lowercased location
for `sector(?:ul)?\s*(\d)` and return the digit (as a one-character
string), absent for falsy input or no match. -/
def extract_sector (location_info : Option Str) : Option Str :=
  match location_info with
  | none => none
  | some l =>
    if l = [] then none
    else
      match findSectorDigit (l.map Char.toLower) with
      | some d => some [d]
      | none => none

/- ### `parse_rooms_area_from_text` (source lines 173-185) -/

/-- Python `int` on a digit string. -/
def natOfDigits (ds : Str) : Nat :=
  ds.foldl (fun acc c => 10 * acc + (c.toNat - '0'.toNat)) 0

/-- One attempted match of `(\d+)\s*(camere|camera)` at the start of `l`
(lowercased): a nonempty maximal digit run, optional whitespace, then one
of the two literals. -/
def roomsMatchAt (l : Str) : Option Nat :=
  let ds := l.takeWhile Char.isDigit
  if ds ≠ [] then
    if ( "camere".data).isPrefixOf ((l.dropWhile Char.isDigit).dropWhile pySpace) ∨
        ( "camera".data).isPrefixOf ((l.dropWhile Char.isDigit).dropWhile pySpace) then
      some (natOfDigits ds)
    else none
  else none

/-- Leftmost match of `(\d+)\s*(camere|camera)`. -/
def findRooms : Str → Option Nat
  | [] => none
  | c :: rest =>
    match roomsMatchAt (c :: rest) with
    | some n => some n
    | none => findRooms rest

/-- One attempted match of `(\d+([.,]\d+)?)\s*m²` at the start of `l`
(lowercased), returning the numeral of group 1 with `,` already replaced by
`.` (the source converts it with `float(m.group(1).replace( ",", "."))`; the
embedding keeps the exact decimal numeral, as no claim depends on binary
float rounding). -/
def areaMatchAt (l : Str) : Option Str :=
  let ds := l.takeWhile Char.isDigit
  if ds = [] then none
  else
    match l.dropWhile Char.isDigit with
    | [] => none
    | sep :: r2 =>
      if (sep = '.' ∨ sep = ',') ∧ r2.takeWhile Char.isDigit ≠ [] then
        if ( "m²".data).isPrefixOf ((r2.dropWhile Char.isDigit).dropWhile pySpace) then
          some (ds ++ '.' :: r2.takeWhile Char.isDigit)
        else none
      else
        if ( "m²".data).isPrefixOf ((sep :: r2).dropWhile pySpace) then some ds
        else none

/-- Leftmost match of `(\d+([.,]\d+)?)\s*m²`. -/
def findArea : Str → Option Str
  | [] => none
  | c :: rest =>
    match areaMatchAt (c :: rest) with
    | some a => some a
    | none => findArea rest

/-- Source `parse_rooms_area_from_text` (lines 173-185): both regexes are
searched in the lowercased card text, each independently present/absent. -/
def parse_rooms_area_from_text (card_text : Str) : Option Nat × Option Str :=
  (findRooms (card_text.map Char.toLower), findArea (card_text.map Char.toLower))

/- ### Link helpers (source lines 73-86) -/

/-- Python substring containment (`needle in hay`). -/
def strContains : Str → Str → Bool
  | [], needle => needle.isEmpty
  | c :: t, needle => needle.isPrefixOf (c :: t) || strContains t needle

/-- Source `looks_like_listing_link` (lines 73-76): falsy href is rejected,
otherwise test the two substrings (the second subsumes the first). -/
def looks_like_listing_link (href : Option Str) : Bool :=
  match href with
  | none => false
  | some h =>
    if h.isEmpty then false
    else strContains h ( "/oferta/".data) || strContains h ( "/oferta".data)

/-- Source constant `BASE_URL` (line 11). -/
def BASE_URL : Str := "https://www.storia.ro".data

/-- Source `normalize_link` (lines 78-86): falsy href gives `None`; strip;
a root-relative href is prefixed with `BASE_URL`; an absolute `http` href
is kept; anything else gives `None`. -/
def normalize_link (href : Option Str) : Option Str :=
  match href with
  | none => none
  | some h0 =>
    if h0.isEmpty then none
    else
      let h := pyStrip h0
      if h.head? = some '/' then some (BASE_URL ++ h)
      else if ( "http".data).isPrefixOf h then some h
      else none

/- ### The rendered card (external Playwright capability) -/

/-- A rendered DOM element: its visible text and its attributes. -/
structure Element where
  innerText : Str
  attrs : List (Str × Str)
deriving DecidableEq

/-- Playwright `el.get_attribute(name)`. -/
def Element.get_attribute (el : Element) (name : Str) : Option Str :=
  match el.attrs.find? (fun pr => pr.1 == name) with
  | some pr => some pr.2
  | none => none

/-- A rendered listing card: the answers it gives to `query_selector`,
`query_selector_all` and `inner_text`. -/
structure Card where
  query : Str → Option Element
  queryAll : Str → List Element
  innerText : Str

/-- Source `TITLE_SELECTORS` (lines 108-115). -/
def TITLE_SELECTORS : List Str :=
  [ "[data-cy*=\x27title\x27]".data, "[data-testid*=\x27title\x27]".data,
    "h2".data, "h3".data, "a[title]".data, "a[aria-label]".data ]

/-- Source `LOCATION_SELECTORS` (lines 117-123). -/
def LOCATION_SELECTORS : List Str :=
  [ "[data-cy*=\x27location\x27]".data, "[data-testid*=\x27location\x27]".data,
    "[data-cy*=\x27address\x27]".data, "[data-testid*=\x27address\x27]".data,
    "p:has-text(\x27Sector\x27)".data ]

/-- Source `PRICE_SELECTORS` (lines 125-130). -/
def PRICE_SELECTORS : List Str :=
  [ "[data-cy*=\x27price\x27]".data, "[data-testid*=\x27price\x27]".data,
    "p:has-text(\x27€\x27)".data, "span:has-text(\x27€\x27)".data ]

/-- One step of the fallback loop shared by `extract_title`,
`extract_location` and `extract_price`: query one selector, normalise the
element text with `clean_text` (`parse_price_raw` is the same function),
and accept it only at the field-specific minimum length. -/
def acceptSel (card : Card) (minLen : Nat) (sel : Str) : Option Str :=
  match card.query sel with
  | none => none
  | some el =>
    match clean_text (some el.innerText) with
    | none => none
    | some t => if minLen ≤ t.length then some t else none

/-- The selector fallback loop: first accepted selector wins; a selector
whose element exists but fails the length test does not stop the loop. -/
def chainResolve (card : Card) (minLen : Nat) : List Str → Option Str
  | [] => none
  | sel :: rest =>
    match acceptSel card minLen sel with
    | some t => some t
    | none => chainResolve card minLen rest

def pickFirstAttrAux (e : Element) : List Str → Option Str
  | [] => none
  | a :: rest =>
    let v := clean_text (e.get_attribute a)
    if truthyStr v then v else pickFirstAttrAux e rest

/-- Source `pick_first_attr` (lines 64-71): the first attribute whose
cleaned value is truthy. -/
def pick_first_attr (el : Option Element) (names : List Str) : Option Str :=
  match el with
  | none => none
  | some e => pickFirstAttrAux e names

/-- Source `extract_title` (lines 132-144): the title chain at minimum
length 3, then the anchor `title`/`aria-label` attribute fallback, also at
minimum length 3. -/
def extract_title (card : Card) : Option Str :=
  match chainResolve card 3 TITLE_SELECTORS with
  | some t => some t
  | none =>
    match card.query ( "a[href]".data) with
    | some a =>
      match pick_first_attr (some a) [ "title".data, "aria-label".data] with
      | some t => if 3 ≤ t.length then some t else none
      | none => none
    | none => none

/-- Source `extract_location` (lines 155-162): the location chain at
minimum length 2. -/
def extract_location (card : Card) : Option Str :=
  chainResolve card 2 LOCATION_SELECTORS

/-- Source `extract_price` (lines 164-171): the price chain at minimum
length 1 (`parse_price_raw` is `clean_text`). -/
def extract_price (card : Card) : Option Str :=
  chainResolve card 1 PRICE_SELECTORS

/-- The anchor loop of `extract_listing_link`: the source returns
`normalize_link(href)` for the first listing-shaped href even when that
normalisation gives `None`, so a hit is distinguished from falling
through. -/
def scanListingAnchors : List Element → Option (Option Str)
  | [] => none
  | a :: rest =>
    let href := a.get_attribute ( "href".data)
    if looks_like_listing_link href then some (normalize_link href)
    else scanListingAnchors rest

/-- Source `extract_listing_link` (lines 146-153). -/
def extract_listing_link (card : Card) : Option Str :=
  match scanListingAnchors (card.queryAll ( "a[href]".data)) with
  | some r => r
  | none =>
    match card.query ( "a[href]".data) with
    | some a => normalize_link (a.get_attribute ( "href".data))
    | none => none

/-- Concrete elements and card for the C2 witness: three locators, the
first yields below-threshold text, the second a valid location string. -/
def elemShort : Element := ⟨ "x".data, []⟩

def elemLoc : Element := ⟨ "  Sector  3 ".data, []⟩

def cardW : Card where
  query := fun sel =>
    if sel = "s1".data then some elemShort
    else if sel = "s2".data then some elemLoc
    else none
  queryAll := fun _ => []
  innerText := []

/- ### Detail-page enrichment (source lines 195-260) -/

/-- Outcome of running one extraction phase against the external detail
page: the value it returns, or the fact that the page capability raised. -/
inductive StepResult (α : Type) where
  | ok (val : α) : StepResult α
  | raised : StepResult α
deriving DecidableEq

/-- The external world of one detail-page visit: whether
`goto`/`wait_for_timeout`/`accept_cookies` complete (failures there raise
before any field is assigned), and what `extract_location_from_detail` and
`extract_rooms_from_detail` would yield against the rendered page (or that
the page capability raises during them). -/
structure DetailWorld where
  navOk : Bool
  locStep : StepResult (Option Str)
  roomsStep : StepResult (Option Nat)
deriving DecidableEq

/-- The `out` dictionary of `enrich_from_detail`.  A key that was assigned
`None` and a key never assigned are both read back through `.get` as
`None`, so they are identified here. -/
structure EnrichmentResult where
  location_info : Option Str
  sector : Option Str
  room_number : Option Nat
deriving DecidableEq

def emptyEnrichment : EnrichmentResult := ⟨none, none, none⟩

/-- The `try` body of `enrich_from_detail` (lines 242-257): an `error`
carries the partial `out` accumulated when the exception was raised. -/
def enrichTry (w : DetailWorld) (need_location need_rooms : Bool) :
    Except EnrichmentResult EnrichmentResult :=
  if !w.navOk then .error emptyEnrichment
  else
    let step1 : Except EnrichmentResult EnrichmentResult :=
      if need_location then
        match w.locStep with
        | .raised => .error emptyEnrichment
        | .ok loc => .ok ⟨loc, extract_sector loc, none⟩
      else .ok emptyEnrichment
    match step1 with
    | .error out => .error out
    | .ok out1 =>
      if need_rooms then
        match w.roomsStep with
        | .raised => .error out1
        | .ok r => .ok ⟨out1.location_info, out1.sector, r⟩
      else .ok out1

/-- Source `enrich_from_detail` (lines 240-260): the `except Exception:
return out` handler makes every failure return the partial result. -/
def enrich_from_detail (w : DetailWorld) (need_location need_rooms : Bool) :
    EnrichmentResult :=
  match enrichTry w need_location need_rooms with
  | .ok out => out
  | .error out => out

/-- A concrete detail world for the C6 witness: navigation succeeds, the
location phase yields a location, the rooms phase raises. -/
def detailW0 : DetailWorld :=
  ⟨true, .ok (some ( "Bucuresti, Sectorul 3".data)), .raised⟩

/- ### One row of the output table (source lines 331-342) -/

/-- One record of the output CSV, with the source's column names.
`Scraped_At` is the `datetime.now()` timestamp string and `Area_m2` holds
the matched area numeral (see `areaMatchAt`). -/
structure Row where
  listing_id : Option Str
  Property_Title : Option Str
  Price_Raw : Option Str
  Location_Info : Option Str
  Sector : Option Str
  Room_Number : Option Nat
  Area_m2 : Option Str
  Link : Option Str
  Scraped_At : Str
  Page : Nat
deriving DecidableEq

/-- The mutable page-scrape state: the run-wide `detail_cache` dict
(insertion-ordered association list) together with a log of the listing ids
for which `enrich_from_detail` was actually invoked. -/
structure ScrapeState where
  cache : List (Str × EnrichmentResult)
  calls : List Str
deriving DecidableEq

/-- Dictionary lookup `detail_cache[lid]` / `lid in detail_cache`. -/
def cacheLookup (cache : List (Str × EnrichmentResult)) (k : Str) :
    Option EnrichmentResult :=
  match cache.find? (fun pr => pr.1 == k) with
  | some pr => some pr.2
  | none => none

/-- Python `a or b` on optional strings (an empty string is falsy). -/
def pyOr (a b : Option Str) : Option Str :=
  match a with
  | some s => if s.isEmpty then b else some s
  | none => b

/-- The retention test of line 344: `row[ "Link"] and (row[ "Property_Title"]
or row[ "Price_Raw"] or row[ "Location_Info"])`. -/
def retainRow (r : Row) : Bool :=
  truthyStr r.Link &&
    (truthyStr r.Property_Title || truthyStr r.Price_Raw ||
      truthyStr r.Location_Info)

/-- Lines 344-345: append the row only when the retention test passes. -/
def finalizeRow (row : Row) (st : ScrapeState) : Option Row × ScrapeState :=
  (if retainRow row then some row else none, st)

/-- Lines 324-329: backfill only the needed fields; `location_info` and
`sector` are merged with Python `or`, `rooms` with an `is not None` test. -/
def backfill (need_location need_rooms : Bool) (loc sec : Option Str)
    (rooms : Option Nat) (cached : EnrichmentResult) :
    Option Str × Option Str × Option Nat :=
  (if need_location then pyOr loc cached.location_info else loc,
   if need_location then pyOr sec cached.sector else sec,
   if need_rooms then
     (match rooms with
      | some n => some n
      | none => cached.room_number)
   else rooms)

/-- Lines 331-342: the row dictionary. -/
def buildRow (lid title price_raw loc sec : Option Str) (rooms : Option Nat)
    (area : Option Str) (link : Str) (now : Str) (page_num : Nat) : Row :=
  { listing_id := lid, Property_Title := title, Price_Raw := price_raw,
    Location_Info := loc, Sector := sec, Room_Number := rooms,
    Area_m2 := area, Link := some link, Scraped_At := now, Page := page_num }

/-- Lines 313-322: consult the cache, computing and storing on a miss; the
`calls` log records each actual `enrich_from_detail` invocation. -/
def cacheStep (dw : Str → DetailWorld) (st : ScrapeState) (lidv : Str)
    (link : Str) (need_location need_rooms : Bool) :
    EnrichmentResult × ScrapeState :=
  match cacheLookup st.cache lidv with
  | some r => (r, st)
  | none =>
    let r := enrich_from_detail (dw link) need_location need_rooms
    (r, ⟨st.cache ++ [(lidv, r)], st.calls ++ [lidv]⟩)

/-- The source constant `ENABLE_DETAIL_ENRICH` (line 24). -/
def ENABLE_DETAIL_ENRICH : Bool := true

/-- Line 309: `need_location = (location_info is None) or (sector is None)`. -/
def needLocation (c : Card) : Bool :=
  (extract_location c).isNone || (extract_sector (extract_location c)).isNone

/-- The card-level room count (lines 301-302). -/
def cardRooms (c : Card) : Option Nat :=
  (parse_rooms_area_from_text ((clean_text (some c.innerText)).getD [])).1

/-- The card-level area (lines 301-302). -/
def cardArea (c : Card) : Option Str :=
  (parse_rooms_area_from_text ((clean_text (some c.innerText)).getD [])).2

/-- Line 310: `need_rooms = (rooms is None)`. -/
def needRooms (c : Card) : Bool := (cardRooms c).isNone

/-- The `(location_info, sector, rooms)` triple after the cache consult and
backfill of lines 312-329, for a card whose enrichment branch is taken. -/
def enrichedFields (dw : Str → DetailWorld) (st : ScrapeState) (c : Card)
    (link : Str) : Option Str × Option Str × Option Nat :=
  backfill (needLocation c) (needRooms c) (extract_location c)
    (extract_sector (extract_location c)) (cardRooms c)
    (cacheStep dw st ((listing_id_from_link (some link)).getD []) link
      (needLocation c) (needRooms c)).1

/-- The body of the per-card loop of `scrape_page` (lines 292-345): extract
the link (skipping cards without a listing-shaped link), the card fields,
derive the listing id, enrich missing location/sector/rooms through the
cache when enrichment is enabled and the id is truthy, then build the row
and filter it by the retention test.  `dw` maps a detail link to the
external world of its detail-page visit. -/
def processCard (dw : Str → DetailWorld) (enable : Bool) (page_num : Nat)
    (now : Str) (st : ScrapeState) (c : Card) : Option Row × ScrapeState :=
  match extract_listing_link c with
  | none => (none, st)
  | some link =>
    if link.isEmpty || !strContains link ( "/oferta".data) then (none, st)
    else
      if enable && ((needLocation c || needRooms c) &&
          truthyStr (listing_id_from_link (some link))) then
        finalizeRow
          (buildRow (listing_id_from_link (some link)) (extract_title c)
            (extract_price c) (enrichedFields dw st c link).1
            (enrichedFields dw st c link).2.1 (enrichedFields dw st c link).2.2
            (cardArea c) link now page_num)
          (cacheStep dw st ((listing_id_from_link (some link)).getD []) link
            (needLocation c) (needRooms c)).2
      else
        finalizeRow
          (buildRow (listing_id_from_link (some link)) (extract_title c)
            (extract_price c) (extract_location c)
            (extract_sector (extract_location c)) (cardRooms c) (cardArea c)
            link now page_num)
          st

/-- The card loop of `scrape_page` over an enumerated list of cards,
threading the cache state and collecting retained rows in order. -/
def scrape_page_cards (dw : Str → DetailWorld) (enable : Bool)
    (page_num : Nat) (now : Str) : ScrapeState → List Card →
    List Row × ScrapeState
  | st, [] => ([], st)
  | st, c :: rest =>
    ((match (processCard dw enable page_num now st c).1 with
      | some r => r :: (scrape_page_cards dw enable page_num now
          (processCard dw enable page_num now st c).2 rest).1
      | none => (scrape_page_cards dw enable page_num now
          (processCard dw enable page_num now st c).2 rest).1),
     (scrape_page_cards dw enable page_num now
        (processCard dw enable page_num now st c).2 rest).2)

/- ### Run controller (source lines 382-437) -/

/-- The in-run dedup loop (lines 416-424): a row with a truthy listing id
already seen is dropped; a row with a truthy unseen id is kept and its id
recorded; a row with a falsy id (`None` or empty) is always kept. -/
def dedupRows : List Str → List Row → List Row × List Str
  | seen, [] => ([], seen)
  | seen, r :: rest =>
    match r.listing_id with
    | some lid =>
      if lid ≠ [] ∧ lid ∈ seen then dedupRows seen rest
      else
        (r :: (dedupRows (if lid ≠ [] then lid :: seen else seen) rest).1,
         (dedupRows (if lid ≠ [] then lid :: seen else seen) rest).2)
    | none =>
      (r :: (dedupRows seen rest).1, (dedupRows seen rest).2)

/-- Observable events of the run loop: page-scrape attempts, the backoff
sleeps after failed attempts (with their duration `2*attempt + jitter`
seconds), the incremental append, and the inter-page pacing sleep. -/
inductive Event where
  | attemptOk (page attempt : Nat) : Event
  | attemptFail (page attempt : Nat) : Event
  | retrySleep (page attempt : Nat) (dur : Rat) : Event
  | save (page added : Nat) : Event
  | paceSleep (page : Nat) : Event
deriving DecidableEq

/-- Line 408: `wait = 2.0 * attempt + random.random()`. -/
def retryDelay (attempt : Nat) (jitter : Rat) : Rat := 2 * attempt + jitter

/-- The per-page retry loop (lines 402-414) over the remaining attempt
numbers: `cardsAt a` is the outcome of attempt `a` — the cards the rendered
page yields, or `none` when navigation raises (in which case the scrape
state is untouched, since `page.goto` precedes all card processing); on
failure the loop logs the attempt and the backoff sleep and retries;
`page_rows` stays `[]` when every attempt fails. -/
def tryAttempts (dw : Str → DetailWorld) (enable : Bool) (page_num : Nat)
    (now : Str) (jitter : Nat → Nat → Rat)
    (cardsAt : Nat → Option (List Card)) (st : ScrapeState) :
    List Nat → List Row × ScrapeState × List Event
  | [] => ([], st, [])
  | a :: rest =>
    match cardsAt a with
    | some cards =>
      ((scrape_page_cards dw enable page_num now st cards).1,
       (scrape_page_cards dw enable page_num now st cards).2,
       [Event.attemptOk page_num a])
    | none =>
      ((tryAttempts dw enable page_num now jitter cardsAt st rest).1,
       (tryAttempts dw enable page_num now jitter cardsAt st rest).2.1,
       Event.attemptFail page_num a ::
         Event.retrySleep page_num a (retryDelay a (jitter page_num a)) ::
         (tryAttempts dw enable page_num now jitter cardsAt st rest).2.2)

/-- The state of `run` (lines 386-388 and the page loop): row counter,
run-wide seen ids, the scrape state (detail cache and call log), the
append-only output table, all rows produced before dedup, and the event
trace. -/
structure RunState where
  total_rows : Nat
  seen_ids : List Str
  scrape : ScrapeState
  outRows : List Row
  produced : List Row
  trace : List Event
deriving DecidableEq

def initRunState : RunState := ⟨0, [], ⟨[], []⟩, [], [], []⟩

/-- One page attempt block: up to the 3 attempts of `for attempt in
range(1, 4)`. -/
def pageAttempt (dw : Str → DetailWorld) (enable : Bool) (now : Str)
    (jitter : Nat → Nat → Rat) (cardsAt : Nat → Nat → Option (List Card))
    (rs : RunState) (page_num : Nat) : List Row × ScrapeState × List Event :=
  tryAttempts dw enable page_num now jitter (cardsAt page_num) rs.scrape
    [1, 2, 3]

/-- One iteration of the page loop (lines 401-430): attempt the page scrape
up to 3 times, dedup against the run-wide seen set, append the survivors,
count them, and pace. -/
def runStep (dw : Str → DetailWorld) (enable : Bool) (now : Str)
    (jitter : Nat → Nat → Rat) (cardsAt : Nat → Nat → Option (List Card))
    (rs : RunState) (page_num : Nat) : RunState :=
  { total_rows := rs.total_rows +
      (dedupRows rs.seen_ids
        (pageAttempt dw enable now jitter cardsAt rs page_num).1).1.length,
    seen_ids := (dedupRows rs.seen_ids
      (pageAttempt dw enable now jitter cardsAt rs page_num).1).2,
    scrape := (pageAttempt dw enable now jitter cardsAt rs page_num).2.1,
    outRows := rs.outRows ++ (dedupRows rs.seen_ids
      (pageAttempt dw enable now jitter cardsAt rs page_num).1).1,
    produced := rs.produced ++
      (pageAttempt dw enable now jitter cardsAt rs page_num).1,
    trace := rs.trace ++
      (pageAttempt dw enable now jitter cardsAt rs page_num).2.2 ++
      [Event.save page_num (dedupRows rs.seen_ids
        (pageAttempt dw enable now jitter cardsAt rs page_num).1).1.length,
       Event.paceSleep page_num] }

/-- The page loop of `run` over pages `1 .. maxPages`. -/
def runModel (dw : Str → DetailWorld) (enable : Bool) (now : Str)
    (jitter : Nat → Nat → Rat) (cardsAt : Nat → Nat → Option (List Card))
    (maxPages : Nat) : RunState :=
  (List.range' 1 maxPages).foldl (runStep dw enable now jitter cardsAt)
    initRunState

/-- Source constant `MAX_PAGES` (line 14). -/
def MAX_PAGES : Nat := 20

/-- Source `run` (lines 382-437) with its configured constants. -/
def run (dw : Str → DetailWorld) (now : Str) (jitter : Nat → Nat → Rat)
    (cardsAt : Nat → Nat → Option (List Card)) : RunState :=
  runModel dw ENABLE_DETAIL_ENRICH now jitter cardsAt MAX_PAGES

/- ### Concrete cards and worlds used by the witnesses -/

/-- An anchor element whose href is a listing link. -/
def anchorOferta : Element :=
  ⟨[], [( "href".data, "/oferta/apartament-77.html".data)]⟩

/-- A card yielding only a link: no title, price or location resolves. -/
def cardNoFields : Card :=
  ⟨fun sel => if sel = "a[href]".data then some anchorOferta else none,
   fun sel => if sel = "a[href]".data then [anchorOferta] else [],
   []⟩

/-- A detail world in which navigation always fails. -/
def dwFail : Str → DetailWorld := fun _ => ⟨false, .raised, .raised⟩

/-- A detail world that yields a room count and no location. -/
def dwRooms : Str → DetailWorld := fun _ => ⟨true, .ok none, .ok (some 4)⟩

def elemTitle : Element := ⟨ "Apartament frumos".data, []⟩

def elemLocB : Element := ⟨ "Bucuresti, Sector 2".data, []⟩

/-- A card with title, location and link, but no room count. -/
def cardFull : Card :=
  ⟨fun sel =>
     if sel = "h2".data then some elemTitle
     else if sel = "[data-cy*=\x27location\x27]".data then some elemLocB
     else if sel = "a[href]".data then some anchorOferta
     else none,
   fun sel => if sel = "a[href]".data then [anchorOferta] else [],
   "Apartament frumos".data⟩

/-- The record `cardFull` produces on page 1 (rooms backfilled from
`dwRooms`). -/
def rowFull : Row :=
  ⟨some ( "77".data), some ( "Apartament frumos".data), none,
   some ( "Bucuresti, Sector 2".data), some ( "2".data), some 4, none,
   some ( "https://www.storia.ro/oferta/apartament-77.html".data), [], 1⟩

/-- A one-page run whose only card is `cardFull`. -/
def cardsAt1 : Nat → Nat → Option (List Card) :=
  fun p a => if p = 1 ∧ a = 1 then some [cardFull] else some []

/-- An enrichment result already cached for id `77`. -/
def cachedRes : EnrichmentResult :=
  ⟨some ( "Sector 2".data), some ( "2".data), some 3⟩

/-- A scrape state whose cache already holds id `77`. -/
def stCached : ScrapeState := ⟨[( "77".data, cachedRes)], [ "77".data]⟩

/-- A page whose three attempts all fail. -/
def cardsAtFail : Nat → Nat → Option (List Card) := fun _ _ => none

/-- A two-page run: each page's first attempt yields the same card. -/
def cardsAt2 : Nat → Nat → Option (List Card) :=
  fun _ a => if a = 1 then some [cardFull] else some []

/-- A card with a title and link, but no location and no room count. -/
def cardTitleOnly : Card :=
  ⟨fun sel =>
     if sel = "h2".data then some elemTitle
     else if sel = "a[href]".data then some anchorOferta
     else none,
   fun sel => if sel = "a[href]".data then [anchorOferta] else [],
   "Apartament frumos".data⟩

/-- The record `cardTitleOnly` produces on page 2 after a cache hit whose
cached computation never requested the location. -/
def rowTitleOnly : Row :=
  ⟨some ( "77".data), some ( "Apartament frumos".data), none, none, none,
   some 4, none,
   some ( "https://www.storia.ro/oferta/apartament-77.html".data), [], 2⟩

/-- The length of `dropWhile` output never exceeds the input length. -/
theorem length_dropWhile_le (p : Char → Bool) (l : List Char) :
    (l.dropWhile p).length ≤ l.length := by
  induction l with
  | nil => simp [List.dropWhile]
  | cons c t ih =>
    by_cases h : p c
    · simp [List.dropWhile, h]; omega
    · simp [List.dropWhile, h]

/- ### Lemmas about `dropWhile`, `pyStrip` and `collapseWS` -/

theorem dropWhile_head_false (p : Char → Bool) (l : List Char) (c : Char)
    (h : (l.dropWhile p).head? = some c) : p c = false := by
  induction l with
  | nil => simp [List.dropWhile] at h
  | cons a t ih =>
    by_cases hp : p a
    · simp only [List.dropWhile, hp] at h
      exact ih h
    · simp only [List.dropWhile, hp] at h
      simp only [List.head?] at h
      cases h
      simpa using hp

theorem dropWhile_eq_self_of_head (p : Char → Bool) (l : List Char)
    (h : ∀ c, l.head? = some c → p c = false) : l.dropWhile p = l := by
  cases l with
  | nil => simp [List.dropWhile]
  | cons a t =>
    have := h a (by simp)
    simp [List.dropWhile, this]

theorem getLast?_cons_ne_nil (a : Char) (l : List Char) (h : l ≠ []) :
    (a :: l).getLast? = l.getLast? := by
  cases l with
  | nil => exact absurd rfl h
  | cons b t => rfl

/-- A nonempty `dropWhile` output is a suffix, so it has the same last
element as the input list. -/
theorem getLast?_dropWhile (p : Char → Bool) (l : List Char)
    (h : l.dropWhile p ≠ []) : (l.dropWhile p).getLast? = l.getLast? := by
  conv_rhs => rw [← List.takeWhile_append_dropWhile (p := p) (l := l)]
  rw [List.getLast?_append_of_ne_nil _ h]

theorem pyStrip_head (l : Str) (c : Char) (h : (pyStrip l).head? = some c) :
    pySpace c = false :=
  dropWhile_head_false pySpace _ c h

theorem pyStrip_last (l : Str) (c : Char) (h : (pyStrip l).getLast? = some c) :
    pySpace c = false := by
  unfold pyStrip at h
  have hne : ((l.reverse.dropWhile pySpace).reverse).dropWhile pySpace ≠ [] := by
    intro he
    rw [he] at h
    simp at h
  rw [getLast?_dropWhile pySpace _ hne] at h
  rw [List.getLast?_reverse] at h
  exact dropWhile_head_false pySpace _ c h

/-- A string with no whitespace at either boundary is a fixed point of
`pyStrip`. -/
theorem pyStrip_eq_self (l : Str) (h : noEdgeWS l = true) : pyStrip l = l := by
  unfold noEdgeWS at h
  rw [Bool.and_eq_true] at h
  obtain ⟨h1, h2⟩ := h
  unfold pyStrip
  have hr : l.reverse.dropWhile pySpace = l.reverse := by
    apply dropWhile_eq_self_of_head
    intro c hc
    rw [List.head?_reverse] at hc
    rw [hc] at h2
    simpa using h2
  rw [hr, List.reverse_reverse]
  apply dropWhile_eq_self_of_head
  intro c hc
  rw [hc] at h1
  simpa using h1

theorem collapseWS_nil_iff (l : Str) : collapseWS l = [] ↔ l = [] := by
  induction l with
  | nil => simp [collapseWS]
  | cons c t ih =>
    cases t with
    | nil =>
      by_cases h : pySpace c = true <;> simp [collapseWS, h]
    | cons c2 r =>
      unfold collapseWS
      by_cases h1 : pySpace c = true
      · rw [if_pos h1]
        by_cases h2 : pySpace c2 = true
        · rw [if_pos h2, ih]
          simp
        · rw [if_neg h2]
          simp
      · rw [if_neg h1]
        simp

/-- The head of `collapseWS` is the input head when that is not whitespace. -/
theorem collapseWS_head (l : Str) (c : Char) (hc : l.head? = some c)
    (h : pySpace c = false) : (collapseWS l).head? = some c := by
  cases l with
  | nil => simp at hc
  | cons a t =>
    simp only [List.head?_cons] at hc
    cases hc
    cases t with
    | nil =>
      unfold collapseWS
      rw [if_neg (by simp [h])]
      rfl
    | cons c2 r =>
      unfold collapseWS
      rw [if_neg (by simp [h])]
      rfl

theorem collapseWS_wsIsSpace (l : Str) : wsIsSpace (collapseWS l) = true := by
  induction l with
  | nil => simp [collapseWS, wsIsSpace]
  | cons a t ih =>
    cases t with
    | nil =>
      by_cases h : pySpace a = true
      · unfold collapseWS
        rw [if_pos h]
        simp [wsIsSpace]
      · unfold collapseWS
        rw [if_neg h]
        simp [wsIsSpace, h]
    | cons c2 r =>
      unfold collapseWS
      by_cases h1 : pySpace a = true
      · rw [if_pos h1]
        by_cases h2 : pySpace c2 = true
        · rw [if_pos h2]
          exact ih
        · rw [if_neg h2]
          unfold wsIsSpace at ih ⊢
          simp [ih]
      · rw [if_neg h1]
        unfold wsIsSpace at ih ⊢
        simp [ih, h1]

theorem collapseWS_noWSRun (l : Str) : noWSRun (collapseWS l) = true := by
  induction l with
  | nil => simp [collapseWS, noWSRun]
  | cons a t ih =>
    cases t with
    | nil =>
      by_cases h : pySpace a = true
      · unfold collapseWS
        rw [if_pos h]
        simp [noWSRun]
      · unfold collapseWS
        rw [if_neg h]
        simp [noWSRun]
    | cons c2 r =>
      unfold collapseWS
      by_cases h1 : pySpace a = true
      · by_cases h2 : pySpace c2 = true
        · rw [if_pos h1, if_pos h2]
          exact ih
        · rw [if_pos h1, if_neg h2]
          have hh : (collapseWS (c2 :: r)).head? = some c2 :=
            collapseWS_head (c2 :: r) c2 rfl (by simpa using h2)
          cases hm : collapseWS (c2 :: r) with
          | nil => simp [noWSRun]
          | cons b bs =>
            rw [hm] at hh ih
            simp only [List.head?_cons, Option.some.injEq] at hh
            subst hh
            unfold noWSRun
            simp only [Bool.and_eq_true, ih, and_true, Bool.not_eq_true']
            simp only [Bool.not_eq_true] at h2
            simp [h2]
      · rw [if_neg h1]
        cases hm : collapseWS (c2 :: r) with
        | nil => simp [noWSRun]
        | cons b bs =>
          rw [hm] at ih
          unfold noWSRun
          simp only [Bool.and_eq_true, ih, and_true, Bool.not_eq_true']
          simp only [Bool.not_eq_true] at h1
          simp [h1]

/-- The last element of `collapseWS` agrees with the input's last element
when that element is not whitespace. -/
theorem collapseWS_getLast (l : Str) (c : Char) (hc : l.getLast? = some c)
    (h : pySpace c = false) : (collapseWS l).getLast? = some c := by
  induction l with
  | nil => simp at hc
  | cons a t ih =>
    cases t with
    | nil =>
      simp only [List.getLast?_singleton] at hc
      cases hc
      unfold collapseWS
      rw [if_neg (by simp [h])]
      simp [List.getLast?_singleton]
    | cons c2 r =>
      have hlast : (c2 :: r).getLast? = some c := by
        rw [← getLast?_cons_ne_nil a (c2 :: r) (by simp)]
        exact hc
      have hihv := ih hlast
      have hne : collapseWS (c2 :: r) ≠ [] := by
        rw [Ne, collapseWS_nil_iff]
        simp
      unfold collapseWS
      by_cases h1 : pySpace a = true
      · by_cases h2 : pySpace c2 = true
        · rw [if_pos h1, if_pos h2]
          exact hihv
        · rw [if_pos h1, if_neg h2, getLast?_cons_ne_nil _ _ hne]
          exact hihv
      · rw [if_neg h1, getLast?_cons_ne_nil _ _ hne]
        exact hihv

/-- A string whose whitespace is only single spaces is a fixed point of
`collapseWS`. -/
theorem collapseWS_eq_self (l : Str) (h1 : wsIsSpace l = true)
    (h2 : noWSRun l = true) : collapseWS l = l := by
  induction l with
  | nil => simp [collapseWS]
  | cons a t ih =>
    cases t with
    | nil =>
      by_cases ha : pySpace a = true
      · have has : a = ' ' := by
          unfold wsIsSpace at h1
          rw [List.all_cons, Bool.and_eq_true] at h1
          have h1a := h1.1
          rw [ha] at h1a
          simpa using h1a
        unfold collapseWS
        rw [if_pos ha, has]
      · unfold collapseWS
        rw [if_neg ha]
    | cons c2 r =>
      have h1' : wsIsSpace (c2 :: r) = true := by
        unfold wsIsSpace at h1 ⊢
        rw [List.all_cons, Bool.and_eq_true] at h1
        exact h1.2
      have h2' : noWSRun (c2 :: r) = true := by
        unfold noWSRun at h2
        rw [Bool.and_eq_true] at h2
        exact h2.2
      unfold collapseWS
      by_cases ha : pySpace a = true
      · have has : a = ' ' := by
          unfold wsIsSpace at h1
          rw [List.all_cons, Bool.and_eq_true] at h1
          have h1a := h1.1
          rw [ha] at h1a
          simpa using h1a
        have hc2 : pySpace c2 = false := by
          unfold noWSRun at h2
          rw [Bool.and_eq_true] at h2
          have h2a := h2.1
          rw [Bool.not_eq_true', Bool.and_eq_false_iff] at h2a
          rcases h2a with h2a | h2a
          · rw [ha] at h2a
            exact Bool.noConfusion h2a
          · exact h2a
        rw [if_pos ha, if_neg (by simp [hc2]), ih h1' h2', has]
      · rw [if_neg ha, ih h1' h2']

theorem exists_head?_of_ne_nil (l : Str) (h : l ≠ []) : ∃ c, l.head? = some c := by
  cases l with
  | nil => exact absurd rfl h
  | cons a t => exact ⟨a, rfl⟩

theorem exists_getLast?_of_ne_nil (l : Str) (h : l ≠ []) : ∃ c, l.getLast? = some c := by
  induction l with
  | nil => exact absurd rfl h
  | cons a t ih =>
    cases ht : t with
    | nil => exact ⟨a, by simp [List.getLast?_singleton]⟩
    | cons b r =>
      obtain ⟨c, hc⟩ := ih (by rw [ht]; simp)
      rw [ht] at hc
      exact ⟨c, by rw [getLast?_cons_ne_nil a (b :: r) (by simp)]; exact hc⟩

/-- A `some` result of `clean_text` is nonempty, has no whitespace at its
boundaries, no adjacent whitespace, and only plain spaces as whitespace. -/
theorem clean_text_some_props (x : Option Str) (t : Str)
    (h : clean_text x = some t) :
    t ≠ [] ∧ noEdgeWS t = true ∧ noWSRun t = true ∧ wsIsSpace t = true := by
  cases x with
  | none => exact Option.noConfusion h
  | some s0 =>
    simp only [clean_text] at h
    by_cases h0 : s0 = []
    · rw [if_pos h0] at h
      exact Option.noConfusion h
    · rw [if_neg h0] at h
      by_cases h2 : collapseWS (pyStrip s0) = []
      · rw [if_pos h2] at h
        exact Option.noConfusion h
      · rw [if_neg h2] at h
        have ht : t = collapseWS (pyStrip s0) := by
          cases h
          rfl
        subst ht
        refine ⟨h2, ?_, collapseWS_noWSRun _, collapseWS_wsIsSpace _⟩
        have hps : pyStrip s0 ≠ [] := by
          intro hnil
          rw [hnil] at h2
          exact h2 (by simp [collapseWS])
        obtain ⟨b, hb⟩ := exists_head?_of_ne_nil _ hps
        obtain ⟨e, he⟩ := exists_getLast?_of_ne_nil _ hps
        have hbw : pySpace b = false := pyStrip_head s0 b hb
        have hew : pySpace e = false := pyStrip_last s0 e he
        have hh := collapseWS_head _ b hb hbw
        have hl := collapseWS_getLast _ e he hew
        unfold noEdgeWS
        rw [hh, hl, Bool.and_eq_true]
        exact ⟨by simp [hbw], by simp [hew]⟩

/-- C7: for every input, `clean_text` is idempotent, and its result is
either absent or a non-empty string with no leading/trailing whitespace and
no internal whitespace run longer than one space (indeed every whitespace
character in the result is a single plain space). -/
theorem clean_text_idempotent (x : Option Str) :
    clean_text (clean_text x) = clean_text x ∧
    (∀ t, clean_text x = some t →
      t ≠ [] ∧ noEdgeWS t = true ∧ noWSRun t = true ∧ wsIsSpace t = true) := by
  constructor
  · cases hx : clean_text x with
    | none => simp [clean_text]
    | some t =>
      obtain ⟨hne, hedge, hrun, hsp⟩ := clean_text_some_props x t hx
      simp only [clean_text]
      rw [if_neg hne]
      rw [pyStrip_eq_self t hedge, collapseWS_eq_self t hsp hrun, if_neg hne]
  · intro t ht
    exact clean_text_some_props x t ht

/-- Witness for C7 at the concrete input `"  a\t b  "`. -/
theorem clean_text_idempotent_witness :
    clean_text (some ( "  a\t b  ".data)) = some ( "a b".data) ∧
    ( "a b".data ≠ [] ∧ noEdgeWS ( "a b".data) = true ∧
      noWSRun ( "a b".data) = true ∧ wsIsSpace ( "a b".data) = true) :=
  ⟨by decide, (clean_text_idempotent (some ( "  a\t b  ".data))).2 ( "a b".data) (by decide)⟩

theorem all_takeWhile (p : Char → Bool) (l : Str) :
    (l.takeWhile p).all p = true := by
  induction l with
  | nil => simp [List.takeWhile]
  | cons a t ih =>
    by_cases h : p a
    · simp [List.takeWhile, h, ih]
    · simp [List.takeWhile, h]

theorem takeWhile_append_all (p : Char → Bool) (d y : Str)
    (hd : d.all p = true) (hy : ∀ c, y.head? = some c → p c = false) :
    (d ++ y).takeWhile p = d ∧ (d ++ y).dropWhile p = y := by
  induction d with
  | nil =>
    simp only [List.nil_append]
    constructor
    · cases y with
      | nil => simp [List.takeWhile]
      | cons b t =>
        have := hy b rfl
        simp [List.takeWhile, this]
    · exact dropWhile_eq_self_of_head p y hy
  | cons a d' ih =>
    rw [List.all_cons, Bool.and_eq_true] at hd
    have := ih hd.2
    simp [List.takeWhile, List.dropWhile, hd.1, this.1, this.2]

theorem takeWhile_ne_nil_of_head (p : Char → Bool) (d s : Str)
    (hd : d ≠ []) (hall : d.all p = true) :
    (d ++ s).takeWhile p ≠ [] := by
  cases d with
  | nil => exact absurd rfl hd
  | cons a t =>
    rw [List.all_cons, Bool.and_eq_true] at hall
    simp [List.takeWhile, hall.1]

theorem take_ne_nil_of_ne_nil (n : Nat) (l : Str) (hn : n ≠ 0) (h : l ≠ []) :
    l.take n ≠ [] := by
  cases l with
  | nil => exact absurd rfl h
  | cons a t =>
    cases n with
    | zero => exact absurd rfl hn
    | succ m => simp [List.take]

/-- Soundness of the `-(\d+)\.html` scan: a hit really is a nonempty
all-digit run sandwiched between a dash and the literal `.html`. -/
theorem findDashIdHtml_sound (l d : Str) (h : findDashIdHtml l = some d) :
    ∃ p s, l = p ++ '-' :: (d ++ ( ".html".data ++ s)) ∧ d ≠ [] ∧
      d.all Char.isDigit = true := by
  induction l with
  | nil => exact Option.noConfusion h
  | cons c rest ih =>
    unfold findDashIdHtml at h
    by_cases hcond : c = '-' ∧ rest.takeWhile Char.isDigit ≠ [] ∧
        ( ".html".data).isPrefixOf (rest.dropWhile Char.isDigit)
    · rw [if_pos hcond] at h
      obtain ⟨hc, hne, hpre⟩ := hcond
      have hd : d = rest.takeWhile Char.isDigit := by
        cases h
        rfl
      subst hd
      subst hc
      rw [ List.isPrefixOf_iff_prefix] at hpre
      obtain ⟨s, hs⟩ := hpre
      refine ⟨[], s, ?_, hne, all_takeWhile Char.isDigit rest⟩
      simp only [List.nil_append, List.cons.injEq, true_and]
      rw [hs]
      exact (List.takeWhile_append_dropWhile (p := Char.isDigit) (l := rest)).symm
    · rw [if_neg hcond] at h
      obtain ⟨p, s, hps, hne, hdig⟩ := ih h
      exact ⟨c :: p, s, by rw [hps]; rfl, hne, hdig⟩

/-- Completeness of the `-(\d+)\.html` scan: if the pattern occurs anywhere
in the string, the scan finds a match. -/
theorem findDashIdHtml_complete (p d s : Str) (hd : d ≠ [])
    (hdig : d.all Char.isDigit = true) :
    findDashIdHtml (p ++ '-' :: (d ++ ( ".html".data ++ s))) ≠ none := by
  induction p with
  | nil =>
    simp only [List.nil_append]
    unfold findDashIdHtml
    have hdot : ∀ c, ( ".html".data ++ s).head? = some c → Char.isDigit c = false := by
      intro c hc
      simp only [List.cons_append, List.head?_cons] at hc
      cases hc
      decide
    have htd := takeWhile_append_all Char.isDigit d ( ".html".data ++ s) hdig hdot
    rw [if_pos]
    · intro hno
      exact Option.noConfusion hno
    · refine ⟨rfl, ?_, ?_⟩
      · rw [htd.1]
        exact hd
      · rw [htd.2]
        rw [ List.isPrefixOf_iff_prefix]
        exact ⟨s, rfl⟩
  | cons a p' ih =>
    rw [List.cons_append]
    unfold findDashIdHtml
    by_cases hcond : a = '-' ∧
        (p' ++ '-' :: (d ++ ( ".html".data ++ s))).takeWhile Char.isDigit ≠ [] ∧
        ( ".html".data).isPrefixOf
          ((p' ++ '-' :: (d ++ ( ".html".data ++ s))).dropWhile Char.isDigit)
    · rw [if_pos hcond]
      intro hno
      exact Option.noConfusion hno
    · rw [if_neg hcond]
      exact ih

/-- Soundness of the `[?&]id=(\d+)` scan. -/
theorem findIdParam_sound (l d : Str) (h : findIdParam l = some d) :
    ∃ c p s, (c = '?' ∨ c = '&') ∧ l = p ++ c :: ( "id=".data ++ (d ++ s)) ∧
      d ≠ [] ∧ d.all Char.isDigit = true := by
  induction l with
  | nil => exact Option.noConfusion h
  | cons c rest ih =>
    unfold findIdParam at h
    by_cases hcond : (c = '?' ∨ c = '&') ∧ ( "id=".data).isPrefixOf rest ∧
        (rest.drop 3).takeWhile Char.isDigit ≠ []
    · rw [if_pos hcond] at h
      obtain ⟨hc, hpre, hne⟩ := hcond
      rw [ List.isPrefixOf_iff_prefix] at hpre
      obtain ⟨t, ht⟩ := hpre
      have htd : rest.drop 3 = t := by
        rw [← ht]
        rfl
      cases h
      rw [htd] at hne ⊢
      refine ⟨c, [], t.dropWhile Char.isDigit, hc, ?_, hne,
        all_takeWhile Char.isDigit t⟩
      simp only [List.nil_append, List.cons.injEq, true_and]
      rw [List.takeWhile_append_dropWhile (p := Char.isDigit) (l := t)]
      exact ht.symm
    · rw [if_neg hcond] at h
      obtain ⟨c0, p, s, hc0, hps, hne, hdig⟩ := ih h
      exact ⟨c0, c :: p, s, hc0, by rw [hps]; rfl, hne, hdig⟩

/-- Completeness of the `[?&]id=(\d+)` scan. -/
theorem findIdParam_complete (c0 : Char) (p d s : Str)
    (hc0 : c0 = '?' ∨ c0 = '&') (hd : d ≠ [])
    (hdig : d.all Char.isDigit = true) :
    findIdParam (p ++ c0 :: ( "id=".data ++ (d ++ s))) ≠ none := by
  induction p with
  | nil =>
    simp only [List.nil_append]
    unfold findIdParam
    rw [if_pos]
    · intro hno
      exact Option.noConfusion hno
    · refine ⟨hc0, ?_, ?_⟩
      · rw [ List.isPrefixOf_iff_prefix]
        exact ⟨d ++ s, rfl⟩
      · have hdrop : ( "id=".data ++ (d ++ s)).drop 3 = d ++ s := rfl
        rw [hdrop]
        exact takeWhile_ne_nil_of_head Char.isDigit d s hd hdig
  | cons a p' ih =>
    rw [List.cons_append]
    unfold findIdParam
    by_cases hcond : (a = '?' ∨ a = '&') ∧
        ( "id=".data).isPrefixOf (p' ++ c0 :: ( "id=".data ++ (d ++ s))) ∧
        ((p' ++ c0 :: ( "id=".data ++ (d ++ s))).drop 3).takeWhile Char.isDigit ≠ []
    · rw [if_pos hcond]
      intro hno
      exact Option.noConfusion hno
    · rw [if_neg hcond]
      exact ih

/-- The fallback segment is nonempty whenever the link has any non-slash
character. -/
theorem lastSegment_ne_nil (l : Str) (c0 : Char) (hc0 : c0 ∈ l)
    (hns : ¬c0 = '/') : lastSegment l ≠ [] := by
  unfold lastSegment rstripSlash
  rw [List.reverse_reverse]
  have hmem : c0 ∈ l.reverse := by simpa using hc0
  have hdw : l.reverse.dropWhile (fun c => c == '/') ≠ [] := by
    intro hn
    rw [List.dropWhile_eq_nil_iff] at hn
    have h2 := hn c0 hmem
    simp only [beq_iff_eq] at h2
    exact hns h2
  cases hh : l.reverse.dropWhile (fun c => c == '/') with
  | nil => exact absurd hh hdw
  | cons x xs =>
    have hx : (x == '/') = false := by
      apply dropWhile_head_false (fun c => c == '/') l.reverse
      rw [hh]
      rfl
    simp only [List.takeWhile]
    rw [show (x != '/') = true by simp [bne, hx]]
    simp

/-- C5 counterexample: the claim says `listing_id_from_link` returns absent
only when the link itself is absent, but `if not link` in the source also
maps a present-but-empty link to absent: `listing_id_from_link (some "") =
none` although `some ""` is not absent. -/
theorem listing_id_from_link_counterexample :
    listing_id_from_link (some ([] : Str)) = none ∧
    (some ([] : Str)) ≠ (none : Option Str) := by
  constructor
  · rfl
  · simp

/-- C5 (amended): `listing_id_from_link` tries, in order, (a) the digit
group of the leftmost `-(\d+)\.html` match (a nonempty all-digit run
between a dash and the literal `.html`, anywhere in the link), (b) the
digit group of the leftmost `[?&]id=(\d+)` match, (c) the last path segment
after stripping trailing slashes, truncated to 80 characters; it returns
absent exactly when the link is absent or empty (not only when absent). -/
theorem listing_id_from_link_spec (link : Option Str) :
    (listing_id_from_link link = none ↔ link = none ∨ link = some []) ∧
    (∀ l d, link = some l → findDashIdHtml l = some d →
      listing_id_from_link link = some d ∧
      ∃ p s, l = p ++ '-' :: (d ++ ( ".html".data ++ s)) ∧ d ≠ [] ∧
        d.all Char.isDigit = true) ∧
    (∀ l d, link = some l → findDashIdHtml l = none → findIdParam l = some d →
      listing_id_from_link link = some d ∧
      ∃ c p s, (c = '?' ∨ c = '&') ∧ l = p ++ c :: ( "id=".data ++ (d ++ s)) ∧
        d ≠ [] ∧ d.all Char.isDigit = true) ∧
    (∀ l, link = some l → l ≠ [] → findDashIdHtml l = none →
      findIdParam l = none →
      listing_id_from_link link = some ((lastSegment l).take 80)) := by
  refine ⟨?_, ?_, ?_, ?_⟩
  · constructor
    · intro h
      cases link with
      | none => exact Or.inl rfl
      | some l =>
        by_cases hl : l = []
        · exact Or.inr (by rw [hl])
        · exfalso
          simp only [listing_id_from_link] at h
          rw [if_neg hl] at h
          cases hda : findDashIdHtml l with
          | some ds => rw [hda] at h; exact Option.noConfusion h
          | none =>
            rw [hda] at h
            cases hip : findIdParam l with
            | some ds => rw [hip] at h; exact Option.noConfusion h
            | none => rw [hip] at h; exact Option.noConfusion h
    · intro h
      rcases h with h | h
      · rw [h]; rfl
      · rw [h]; rfl
  · intro l d hlink hda
    subst hlink
    constructor
    · have hne : l ≠ [] := by
        obtain ⟨p, s, hps, hd, _⟩ := findDashIdHtml_sound l d hda
        rw [hps]
        intro hcontra
        exact List.noConfusion (List.append_eq_nil.mp hcontra).2
      simp only [listing_id_from_link]
      rw [if_neg hne, hda]
    · exact findDashIdHtml_sound l d hda
  · intro l d hlink hda hip
    subst hlink
    constructor
    · have hne : l ≠ [] := by
        obtain ⟨c, p, s, _, hps, _, _⟩ := findIdParam_sound l d hip
        rw [hps]
        intro hcontra
        exact List.noConfusion (List.append_eq_nil.mp hcontra).2
      simp only [listing_id_from_link]
      rw [if_neg hne, hda, hip]
    · exact findIdParam_sound l d hip
  · intro l hlink hne hda hip
    subst hlink
    simp only [listing_id_from_link]
    rw [if_neg hne, hda, hip]

/-- Witness for C5 at the three example links of the specification. -/
theorem listing_id_from_link_spec_witness :
    findDashIdHtml ( "https://x/.../apartment-123456.html".data) =
      some ( "123456".data) ∧
    listing_id_from_link (some ( "https://x/.../apartment-123456.html".data)) =
      some ( "123456".data) ∧
    findIdParam ( "https://x/path?id=789".data) = some ( "789".data) ∧
    listing_id_from_link (some ( "https://x/path?id=789".data)) =
      some ( "789".data) ∧
    listing_id_from_link (some ( "https://x/a/b/c".data)) = some ( "c".data) ∧
    listing_id_from_link none = none := by
  refine ⟨by decide, ?_, by decide, ?_, ?_, ?_⟩
  · exact ((listing_id_from_link_spec _).2.1 _ _ rfl (by decide)).1
  · exact ((listing_id_from_link_spec _).2.2.1 _ _ rfl (by decide) (by decide)).1
  · exact Eq.trans
      ((listing_id_from_link_spec _).2.2.2 _ rfl (by decide) (by decide)
        (by decide))
      (by decide)
  · exact (listing_id_from_link_spec none).1.mpr (Or.inl rfl)

theorem strContains_sound (hay needle : Str) (h : strContains hay needle = true) :
    ∃ p s, hay = p ++ (needle ++ s) := by
  induction hay with
  | nil =>
    simp only [strContains, List.isEmpty_iff] at h
    exact ⟨[], [], by rw [h]; rfl⟩
  | cons c t ih =>
    simp only [strContains, Bool.or_eq_true] at h
    rcases h with h | h
    · rw [ List.isPrefixOf_iff_prefix] at h
      obtain ⟨s, hs⟩ := h
      exact ⟨[], s, by rw [← hs]; rfl⟩
    · obtain ⟨p, s, hps⟩ := ih h
      exact ⟨c :: p, s, by rw [hps]; rfl⟩

theorem acceptSel_some (card : Card) (minLen : Nat) (sel : Str) (t : Str)
    (h : acceptSel card minLen sel = some t) :
    ∃ el, card.query sel = some el ∧ clean_text (some el.innerText) = some t ∧
      minLen ≤ t.length := by
  unfold acceptSel at h
  cases hq : card.query sel with
  | none => rw [hq] at h; exact Option.noConfusion h
  | some el =>
    rw [hq] at h
    have h2 : (match clean_text (some el.innerText) with
      | none => none
      | some u => if minLen ≤ u.length then some u else none) = some t := h
    cases hct : clean_text (some el.innerText) with
    | none => rw [hct] at h2; exact Option.noConfusion h2
    | some u =>
      rw [hct] at h2
      have h3 : (if minLen ≤ u.length then some u else none) = some t := h2
      by_cases hlen : minLen ≤ u.length
      · rw [if_pos hlen] at h3
        cases h3
        exact ⟨el, rfl, hct, hlen⟩
      · rw [if_neg hlen] at h3
        exact Option.noConfusion h3

/-- C2: the selector fallback loop returns the cleaned text of the first
locator in the chain whose queried element exists and whose cleaned text
meets the minimum length; it returns absent exactly when every locator
fails or yields below-threshold text; `extract_location` and
`extract_price` are this loop at their field-specific minimum lengths (2
and 1), and `extract_title` is it at minimum length 3 (before the anchor
attribute fallback, which only runs when the whole chain has failed). -/
theorem chainResolve_spec (card : Card) (minLen : Nat) (chain : List Str) :
    (chainResolve card minLen chain = none ↔
      ∀ sel ∈ chain, acceptSel card minLen sel = none) ∧
    (∀ t, chainResolve card minLen chain = some t →
      ∃ pre sel suf el, chain = pre ++ sel :: suf ∧
        (∀ s ∈ pre, acceptSel card minLen s = none) ∧
        card.query sel = some el ∧ clean_text (some el.innerText) = some t ∧
        minLen ≤ t.length) ∧
    extract_location card = chainResolve card 2 LOCATION_SELECTORS ∧
    extract_price card = chainResolve card 1 PRICE_SELECTORS ∧
    (∀ t, chainResolve card 3 TITLE_SELECTORS = some t →
      extract_title card = some t) := by
  refine ⟨?_, ?_, rfl, rfl, ?_⟩
  · induction chain with
    | nil => simp [chainResolve]
    | cons sel rest ih =>
      cases ha : acceptSel card minLen sel with
      | some t =>
        simp only [chainResolve, ha]
        constructor
        · intro h
          exact Option.noConfusion h
        · intro h
          have := h sel (by simp)
          rw [ha] at this
          exact Option.noConfusion this
      | none =>
        simp only [chainResolve, ha]
        rw [ih]
        constructor
        · intro h s hs
          rcases List.mem_cons.mp hs with hs | hs
          · rw [hs]; exact ha
          · exact h s hs
        · intro h s hs
          exact h s (List.mem_cons_of_mem sel hs)
  · induction chain with
    | nil =>
      intro t h
      exact Option.noConfusion h
    | cons sel rest ih =>
      intro t h
      cases ha : acceptSel card minLen sel with
      | some t' =>
        simp only [chainResolve, ha] at h
        cases h
        obtain ⟨el, hq, hct, hlen⟩ := acceptSel_some card minLen sel t ha
        refine ⟨[], sel, rest, el, rfl, by simp, hq, hct, hlen⟩
      | none =>
        simp only [chainResolve, ha] at h
        obtain ⟨pre, s0, suf, el, hchain, hpre, hq, hct, hlen⟩ := ih t h
        refine ⟨sel :: pre, s0, suf, el, by rw [hchain]; rfl, ?_, hq, hct, hlen⟩
        intro s hs
        rcases List.mem_cons.mp hs with hs | hs
        · rw [hs]; exact ha
        · exact hpre s hs
  · intro t h
    unfold extract_title
    rw [h]

/-- Witness for C2: a chain of 3 locators where only the 2nd matches with
sufficient length returns that match (normalized), and a chain whose only
match is below the threshold returns absent. -/
theorem chainResolve_spec_witness :
    chainResolve cardW 2 [ "s1".data, "s2".data, "s3".data] =
      some ( "Sector 3".data) ∧
    (∃ pre sel suf el,
      [ "s1".data, "s2".data, "s3".data] = pre ++ sel :: suf ∧
      (∀ s ∈ pre, acceptSel cardW 2 s = none) ∧
      cardW.query sel = some el ∧
      clean_text (some el.innerText) = some ( "Sector 3".data) ∧
      2 ≤ ( "Sector 3".data).length) ∧
    chainResolve cardW 2 [ "s1".data] = none :=
  ⟨by decide,
   (chainResolve_spec cardW 2 [ "s1".data, "s2".data, "s3".data]).2.1 _ (by decide),
   (chainResolve_spec cardW 2 [ "s1".data]).1.mpr (by decide)⟩

/-- C6: every failure during a detail enrichment call is absorbed inside
the call; the call returns the partial result accumulated up to the failure
point (empty for navigation failures or a failure during the location
phase, the location fields for a failure during the rooms phase), and in
general any raising run returns exactly the partial `out` it carried. -/
theorem enrich_from_detail_absorbs (w : DetailWorld) (nl nr : Bool) :
    (w.navOk = false → enrich_from_detail w nl nr = emptyEnrichment) ∧
    (w.navOk = true → nl = true → w.locStep = .raised →
      enrich_from_detail w nl nr = emptyEnrichment) ∧
    (∀ loc, w.navOk = true → nl = true → nr = true → w.locStep = .ok loc →
      w.roomsStep = .raised →
      enrich_from_detail w nl nr = ⟨loc, extract_sector loc, none⟩) ∧
    (w.navOk = true → nl = false → nr = true → w.roomsStep = .raised →
      enrich_from_detail w nl nr = emptyEnrichment) ∧
    (∀ out, enrichTry w nl nr = .error out → enrich_from_detail w nl nr = out) := by
  refine ⟨?_, ?_, ?_, ?_, ?_⟩
  · intro h
    unfold enrich_from_detail enrichTry
    rw [h]
    rfl
  · intro hnav hnl hloc
    unfold enrich_from_detail enrichTry
    rw [hnav, hnl, hloc]
    rfl
  · intro loc hnav hnl hnr hloc hrooms
    unfold enrich_from_detail enrichTry
    rw [hnav, hnl, hnr, hloc, hrooms]
    rfl
  · intro hnav hnl hnr hrooms
    unfold enrich_from_detail enrichTry
    rw [hnav, hnl, hnr, hrooms]
    rfl
  · intro out h
    unfold enrich_from_detail
    rw [h]

/-- Witness for C6: with both fields requested, a failure in the rooms
phase returns the partial result holding just the location fields. -/
theorem enrich_from_detail_absorbs_witness :
    detailW0.navOk = true ∧ detailW0.locStep = .ok (some ( "Bucuresti, Sectorul 3".data)) ∧
    detailW0.roomsStep = .raised ∧
    enrich_from_detail detailW0 true true =
      ⟨some ( "Bucuresti, Sectorul 3".data), some ( "3".data), none⟩ :=
  ⟨rfl, rfl, rfl,
    (enrich_from_detail_absorbs detailW0 true true).2.2.1
      (some ( "Bucuresti, Sectorul 3".data)) rfl rfl rfl rfl rfl⟩

/- ### Lemmas about enrichment and the per-card step -/

theorem enrich_navFalse (w : DetailWorld) (nl nr : Bool)
    (h : w.navOk = false) : enrich_from_detail w nl nr = emptyEnrichment := by
  unfold enrich_from_detail enrichTry
  rw [h]
  rfl

/-- A computation that did not request the location never yields location
fields (the `out` dict keys are only assigned under `if need_location:`). -/
theorem enrich_nlFalse (w : DetailWorld) (nr : Bool) :
    (enrich_from_detail w false nr).location_info = none ∧
    (enrich_from_detail w false nr).sector = none := by
  unfold enrich_from_detail enrichTry
  cases hnav : w.navOk with
  | false => exact ⟨rfl, rfl⟩
  | true =>
    cases nr with
    | false => exact ⟨rfl, rfl⟩
    | true =>
      cases hr : w.roomsStep with
      | ok v => exact ⟨rfl, rfl⟩
      | raised => exact ⟨rfl, rfl⟩

theorem chainResolve_ne_nil (card : Card) (m : Nat) (chain : List Str)
    (t : Str) (h : chainResolve card m chain = some t) : t ≠ [] := by
  induction chain with
  | nil => exact Option.noConfusion h
  | cons sel rest ih =>
    cases ha : acceptSel card m sel with
    | some t' =>
      simp only [chainResolve, ha] at h
      cases h
      obtain ⟨el, _, hct, _⟩ := acceptSel_some card m sel t ha
      exact (clean_text_some_props _ t hct).1
    | none =>
      simp only [chainResolve, ha] at h
      exact ih h

theorem extract_location_ne_nil (c : Card) (v : Str)
    (h : extract_location c = some v) : v ≠ [] :=
  chainResolve_ne_nil c 2 LOCATION_SELECTORS v h

theorem extract_sector_ne_nil (x : Option Str) (v : Str)
    (h : extract_sector x = some v) : v ≠ [] := by
  cases x with
  | none => exact Option.noConfusion h
  | some l =>
    simp only [extract_sector] at h
    by_cases hl : l = []
    · rw [if_pos hl] at h
      exact Option.noConfusion h
    · rw [if_neg hl] at h
      cases hfd : findSectorDigit (l.map Char.toLower) with
      | none => rw [hfd] at h; exact Option.noConfusion h
      | some d =>
        rw [hfd] at h
        have h2 : some [d] = some v := h
        cases h2
        simp

theorem pyOr_some (s : Str) (b : Option Str) (h : s ≠ []) :
    pyOr (some s) b = some s := by
  simp [pyOr, List.isEmpty_iff, h]

theorem finalizeRow_retain (row : Row) (st : ScrapeState) (r : Row)
    (h : (finalizeRow row st).1 = some r) : r = row ∧ retainRow r = true := by
  unfold finalizeRow at h
  by_cases hr : retainRow row = true
  · rw [if_pos hr] at h
    have h2 : some row = some r := h
    cases h2
    exact ⟨rfl, hr⟩
  · rw [if_neg hr] at h
    have h2 : (none : Option Row) = some r := h
    exact Option.noConfusion h2

theorem processCard_some_retain (dw : Str → DetailWorld) (enable : Bool)
    (page_num : Nat) (now : Str) (st : ScrapeState) (c : Card) (r : Row)
    (h : (processCard dw enable page_num now st c).1 = some r) :
    retainRow r = true := by
  cases hl : extract_listing_link c with
  | none =>
    simp only [processCard, hl] at h
    exact Option.noConfusion h
  | some link =>
    simp only [processCard, hl] at h
    by_cases hg : (link.isEmpty || !strContains link ( "/oferta".data)) = true
    · rw [if_pos hg] at h
      exact Option.noConfusion h
    · rw [if_neg hg] at h
      by_cases he : (enable && ((needLocation c || needRooms c) &&
          truthyStr (listing_id_from_link (some link)))) = true
      · rw [if_pos he] at h
        exact (finalizeRow_retain _ _ _ h).2
      · rw [if_neg he] at h
        exact (finalizeRow_retain _ _ _ h).2

/-- The per-card step either leaves the cache state untouched or performs
exactly one fresh `enrich_from_detail` computation, on a nonempty listing
id that is not yet cached, appending it to both the cache and the call
log. -/
theorem processCard_state_change (dw : Str → DetailWorld) (enable : Bool)
    (page_num : Nat) (now : Str) (st : ScrapeState) (c : Card) :
    (processCard dw enable page_num now st c).2 = st ∨
    ∃ link i, extract_listing_link c = some link ∧
      listing_id_from_link (some link) = some i ∧ i ≠ [] ∧
      cacheLookup st.cache i = none ∧
      (processCard dw enable page_num now st c).2 =
        ⟨st.cache ++
          [(i, enrich_from_detail (dw link) (needLocation c) (needRooms c))],
         st.calls ++ [i]⟩ := by
  cases hl : extract_listing_link c with
  | none =>
    left
    simp only [processCard, hl]
  | some link =>
    simp only [processCard, hl]
    by_cases hg : (link.isEmpty || !strContains link ( "/oferta".data)) = true
    · rw [if_pos hg]
      exact Or.inl rfl
    · rw [if_neg hg]
      by_cases he : (enable && ((needLocation c || needRooms c) &&
          truthyStr (listing_id_from_link (some link)))) = true
      · rw [if_pos he]
        have htr : truthyStr (listing_id_from_link (some link)) = true := by
          simp only [Bool.and_eq_true] at he
          exact he.2.2
        cases hlid : listing_id_from_link (some link) with
        | none =>
          rw [hlid] at htr
          exact absurd htr (by simp [truthyStr])
        | some s =>
          have hs : s ≠ [] := by
            intro hcontra
            rw [hlid, hcontra] at htr
            simp [truthyStr] at htr
          simp only [Option.getD_some]
          cases hlk : cacheLookup st.cache s with
          | some rr =>
            left
            unfold cacheStep
            rw [hlk]
            rfl
          | none =>
            right
            refine ⟨link, s, rfl, hlid, hs, hlk, ?_⟩
            unfold cacheStep
            rw [hlk]
            rfl
      · rw [if_neg he]
        exact Or.inl rfl

theorem cacheLookup_append (c1 c2 : List (Str × EnrichmentResult)) (k : Str) :
    cacheLookup (c1 ++ c2) k =
      match cacheLookup c1 k with
      | some r => some r
      | none => cacheLookup c2 k := by
  unfold cacheLookup
  rw [List.find?_append]
  cases hf : c1.find? (fun pr => pr.1 == k) with
  | some pr => simp [hf, Option.or]
  | none => simp [hf, Option.or]

theorem cacheLookup_singleton (i : Str) (res : EnrichmentResult) (k : Str) :
    cacheLookup [(i, res)] k = if i = k then some res else none := by
  by_cases h : i = k
  · subst h
    simp [cacheLookup, List.find?]
  · rw [if_neg h]
    unfold cacheLookup
    simp only [List.find?]
    rw [show ((i, res).1 == k) = false by simpa using h]

/-- Preservation of the cache/call-log invariant by the per-card step: the
call log stays duplicate-free and every logged id stays cached. -/
theorem processCard_calls_invariant (dw : Str → DetailWorld) (enable : Bool)
    (page_num : Nat) (now : Str) (st : ScrapeState) (c : Card)
    (hnd : st.calls.Nodup)
    (hmem : ∀ i, i ∈ st.calls → cacheLookup st.cache i ≠ none) :
    (processCard dw enable page_num now st c).2.calls.Nodup ∧
    ∀ i, i ∈ (processCard dw enable page_num now st c).2.calls →
      cacheLookup (processCard dw enable page_num now st c).2.cache i ≠ none := by
  rcases processCard_state_change dw enable page_num now st c with h | h
  · rw [h]
    exact ⟨hnd, hmem⟩
  · obtain ⟨link, i0, _, _, _, hlk, hst⟩ := h
    rw [hst]
    constructor
    · rw [List.nodup_append]
      refine ⟨hnd, List.nodup_singleton i0, ?_⟩
      intro a ha hb
      rw [List.mem_singleton] at hb
      subst hb
      exact (hmem a ha) hlk
    · intro i hi
      rw [List.mem_append] at hi
      rw [cacheLookup_append]
      rcases hi with hi | hi
      · have := hmem i hi
        cases hlk2 : cacheLookup st.cache i with
        | none => exact absurd hlk2 this
        | some rr => simp
      · rw [List.mem_singleton] at hi
        rw [hi]
        cases hlk2 : cacheLookup st.cache i0 with
        | some rr => simp
        | none => simp [cacheLookup_singleton]

theorem cacheStep_hit (dw : Str → DetailWorld) (st : ScrapeState)
    (lidv link : Str) (nl nr : Bool) (r : EnrichmentResult)
    (h : cacheLookup st.cache lidv = some r) :
    cacheStep dw st lidv link nl nr = (r, st) := by
  unfold cacheStep
  rw [h]

theorem cacheStep_miss (dw : Str → DetailWorld) (st : ScrapeState)
    (lidv link : Str) (nl nr : Bool)
    (h : cacheLookup st.cache lidv = none) :
    cacheStep dw st lidv link nl nr =
      (enrich_from_detail (dw link) nl nr,
       ⟨st.cache ++ [(lidv, enrich_from_detail (dw link) nl nr)],
        st.calls ++ [lidv]⟩) := by
  unfold cacheStep
  rw [h]

/-- The per-card step when the enrichment branch is taken. -/
theorem processCard_enrich_branch (dw : Str → DetailWorld) (enable : Bool)
    (page_num : Nat) (now : Str) (st : ScrapeState) (c : Card) (link : Str)
    (hl : extract_listing_link c = some link)
    (hga : link.isEmpty = false)
    (hgb : strContains link ( "/oferta".data) = true)
    (he : (enable && ((needLocation c || needRooms c) &&
      truthyStr (listing_id_from_link (some link)))) = true) :
    processCard dw enable page_num now st c =
      finalizeRow
        (buildRow (listing_id_from_link (some link)) (extract_title c)
          (extract_price c) (enrichedFields dw st c link).1
          (enrichedFields dw st c link).2.1 (enrichedFields dw st c link).2.2
          (cardArea c) link now page_num)
        (cacheStep dw st ((listing_id_from_link (some link)).getD []) link
          (needLocation c) (needRooms c)).2 := by
  simp only [processCard, hl]
  rw [if_neg (by simp [hga, hgb]), if_pos he]

/-- The per-card step when the enrichment branch is not taken. -/
theorem processCard_plain_branch (dw : Str → DetailWorld) (enable : Bool)
    (page_num : Nat) (now : Str) (st : ScrapeState) (c : Card) (link : Str)
    (hl : extract_listing_link c = some link)
    (hga : link.isEmpty = false)
    (hgb : strContains link ( "/oferta".data) = true)
    (he : ¬(enable && ((needLocation c || needRooms c) &&
      truthyStr (listing_id_from_link (some link)))) = true) :
    processCard dw enable page_num now st c =
      finalizeRow
        (buildRow (listing_id_from_link (some link)) (extract_title c)
          (extract_price c) (extract_location c)
          (extract_sector (extract_location c)) (cardRooms c) (cardArea c)
          link now page_num)
        st := by
  simp only [processCard, hl]
  rw [if_neg (by simp [hga, hgb]), if_neg he]

theorem backfill_loc (nl nr : Bool) (loc sec : Option Str)
    (rooms : Option Nat) (cached : EnrichmentResult)
    (h : ∀ v, loc = some v → v ≠ []) :
    (backfill nl nr loc sec rooms cached).1 = loc ∨ loc = none := by
  cases hloc : loc with
  | none => exact Or.inr rfl
  | some v =>
    left
    unfold backfill
    cases nl with
    | false => rfl
    | true =>
      simp only [if_pos]
      exact pyOr_some v _ (h v hloc)

theorem backfill_sec (nl nr : Bool) (loc sec : Option Str)
    (rooms : Option Nat) (cached : EnrichmentResult)
    (h : ∀ v, sec = some v → v ≠ []) :
    (backfill nl nr loc sec rooms cached).2.1 = sec ∨ sec = none := by
  cases hsec : sec with
  | none => exact Or.inr rfl
  | some v =>
    left
    unfold backfill
    cases nl with
    | false => rfl
    | true =>
      simp only [if_pos]
      exact pyOr_some v _ (h v hsec)

theorem backfill_rooms (nl nr : Bool) (loc sec : Option Str)
    (rooms : Option Nat) (cached : EnrichmentResult) :
    (backfill nl nr loc sec rooms cached).2.2 = rooms ∨ rooms = none := by
  cases rooms with
  | none => exact Or.inr rfl
  | some n =>
    left
    unfold backfill
    cases nr with
    | false => rfl
    | true => rfl

/-- C9: backfilling from a cached or fresh enrichment result never modifies
`title`, `price_raw`, `area_m2` or `link`, and never overwrites a
location, sector or room count already resolved from the card itself (a
field differing from its card-level value is only possible when the
card-level value was absent). -/
theorem processCard_enrichment_frame (dw : Str → DetailWorld) (enable : Bool)
    (page_num : Nat) (now : Str) (st : ScrapeState) (c : Card) (r : Row)
    (h : (processCard dw enable page_num now st c).1 = some r) :
    r.Property_Title = extract_title c ∧
    r.Price_Raw = extract_price c ∧
    r.Area_m2 = cardArea c ∧
    r.Link = extract_listing_link c ∧
    (r.Location_Info = extract_location c ∨ extract_location c = none) ∧
    (r.Sector = extract_sector (extract_location c) ∨
      extract_sector (extract_location c) = none) ∧
    (r.Room_Number = cardRooms c ∨ cardRooms c = none) := by
  cases hl : extract_listing_link c with
  | none =>
    simp only [processCard, hl] at h
    exact Option.noConfusion h
  | some link =>
    simp only [processCard, hl] at h
    by_cases hg : (link.isEmpty || !strContains link ( "/oferta".data)) = true
    · rw [if_pos hg] at h
      exact Option.noConfusion h
    · rw [if_neg hg] at h
      by_cases he : (enable && ((needLocation c || needRooms c) &&
          truthyStr (listing_id_from_link (some link)))) = true
      · rw [if_pos he] at h
        obtain ⟨hreq, _⟩ := finalizeRow_retain _ _ _ h
        rw [hreq]
        refine ⟨rfl, rfl, rfl, rfl, ?_, ?_, ?_⟩
        · show (enrichedFields dw st c link).1 = extract_location c ∨
            extract_location c = none
          unfold enrichedFields
          exact backfill_loc _ _ _ _ _ _ (fun v hv => extract_location_ne_nil c v hv)
        · show (enrichedFields dw st c link).2.1 =
            extract_sector (extract_location c) ∨
            extract_sector (extract_location c) = none
          unfold enrichedFields
          exact backfill_sec _ _ _ _ _ _ (fun v hv => extract_sector_ne_nil _ v hv)
        · show (enrichedFields dw st c link).2.2 = cardRooms c ∨
            cardRooms c = none
          unfold enrichedFields
          exact backfill_rooms _ _ _ _ _ _
      · rw [if_neg he] at h
        obtain ⟨hreq, _⟩ := finalizeRow_retain _ _ _ h
        rw [hreq]
        exact ⟨rfl, rfl, rfl, rfl, Or.inl rfl, Or.inl rfl, Or.inl rfl⟩

/-- C10: the enrichment result cached for a listing id is computed with the
`need_location`/`need_rooms` flags of the first card that referenced that
id; a later card with the same id receives that cached result with no
second detail fetch, so a field the first computation did not request (the
location, when the first card only needed rooms) stays absent in the later
card's record. -/
theorem cached_flags_of_first_card (dw : Str → DetailWorld) (p1 p2 : Nat)
    (now1 now2 : Str) (st : ScrapeState) (c1 c2 : Card) (link1 link2 i : Str)
    (h1 : extract_listing_link c1 = some link1)
    (hg1a : link1.isEmpty = false)
    (hg1b : strContains link1 ( "/oferta".data) = true)
    (h2 : extract_listing_link c2 = some link2)
    (hg2a : link2.isEmpty = false)
    (hg2b : strContains link2 ( "/oferta".data) = true)
    (hi1 : listing_id_from_link (some link1) = some i)
    (hi2 : listing_id_from_link (some link2) = some i)
    (hine : i ≠ [])
    (hmiss : cacheLookup st.cache i = none)
    (hneed1 : (needLocation c1 || needRooms c1) = true) :
    (processCard dw true p1 now1 st c1).2.calls = st.calls ++ [i] ∧
    cacheLookup (processCard dw true p1 now1 st c1).2.cache i =
      some (enrich_from_detail (dw link1) (needLocation c1) (needRooms c1)) ∧
    (processCard dw true p2 now2 (processCard dw true p1 now1 st c1).2 c2).2 =
      (processCard dw true p1 now1 st c1).2 ∧
    (needLocation c1 = false → extract_location c2 = none →
      ∀ row,
        (processCard dw true p2 now2 (processCard dw true p1 now1 st c1).2
          c2).1 = some row →
        row.Location_Info = none ∧ row.Sector = none) := by
  have htr1 : truthyStr (listing_id_from_link (some link1)) = true := by
    rw [hi1]
    simp [truthyStr, List.isEmpty_iff, hine]
  have htr2 : truthyStr (listing_id_from_link (some link2)) = true := by
    rw [hi2]
    simp [truthyStr, List.isEmpty_iff, hine]
  have he1 : (true && ((needLocation c1 || needRooms c1) &&
      truthyStr (listing_id_from_link (some link1)))) = true := by
    rw [hneed1, htr1]
    rfl
  have hpc1 := processCard_enrich_branch dw true p1 now1 st c1 link1 h1 hg1a
    hg1b he1
  have hgd1 : (listing_id_from_link (some link1)).getD [] = i := by
    rw [hi1]
    rfl
  have hcs1 := cacheStep_miss dw st i link1 (needLocation c1) (needRooms c1)
    hmiss
  have hst1 : (processCard dw true p1 now1 st c1).2 =
      ⟨st.cache ++
        [(i, enrich_from_detail (dw link1) (needLocation c1) (needRooms c1))],
       st.calls ++ [i]⟩ := by
    rw [hpc1, hgd1, hcs1]
    rfl
  have hlk1 : cacheLookup (processCard dw true p1 now1 st c1).2.cache i =
      some (enrich_from_detail (dw link1) (needLocation c1) (needRooms c1)) := by
    rw [hst1]
    rw [cacheLookup_append, hmiss, cacheLookup_singleton]
    simp
  refine ⟨by rw [hst1], hlk1, ?_, ?_⟩
  · by_cases he2 : (true && ((needLocation c2 || needRooms c2) &&
        truthyStr (listing_id_from_link (some link2)))) = true
    · have hpc2 := processCard_enrich_branch dw true p2 now2
        (processCard dw true p1 now1 st c1).2 c2 link2 h2 hg2a hg2b he2
      have hgd2 : (listing_id_from_link (some link2)).getD [] = i := by
        rw [hi2]
        rfl
      have hcs2 := cacheStep_hit dw (processCard dw true p1 now1 st c1).2 i
        link2 (needLocation c2) (needRooms c2) _ hlk1
      rw [hpc2, hgd2, hcs2]
      rfl
    · have hpc2 := processCard_plain_branch dw true p2 now2
        (processCard dw true p1 now1 st c1).2 c2 link2 h2 hg2a hg2b he2
      rw [hpc2]
      rfl
  · intro hnl1 hloc2 row hrow
    have hn2 : needLocation c2 = true := by
      unfold needLocation
      rw [hloc2]
      rfl
    have he2 : (true && ((needLocation c2 || needRooms c2) &&
        truthyStr (listing_id_from_link (some link2)))) = true := by
      rw [hn2, htr2]
      rfl
    have hpc2 := processCard_enrich_branch dw true p2 now2
      (processCard dw true p1 now1 st c1).2 c2 link2 h2 hg2a hg2b he2
    have hgd2 : (listing_id_from_link (some link2)).getD [] = i := by
      rw [hi2]
      rfl
    have hcs2 := cacheStep_hit dw (processCard dw true p1 now1 st c1).2 i
      link2 (needLocation c2) (needRooms c2) _ hlk1
    rw [hpc2] at hrow
    obtain ⟨hreq, _⟩ := finalizeRow_retain _ _ _ hrow
    rw [hreq]
    have hef : enrichedFields dw (processCard dw true p1 now1 st c1).2 c2
        link2 =
        backfill (needLocation c2) (needRooms c2) (extract_location c2)
          (extract_sector (extract_location c2)) (cardRooms c2)
          (enrich_from_detail (dw link1) (needLocation c1) (needRooms c1)) := by
      unfold enrichedFields
      rw [hgd2, hcs2]
    constructor
    · show (enrichedFields dw (processCard dw true p1 now1 st c1).2 c2
        link2).1 = none
      rw [hef]
      unfold backfill
      rw [if_pos hn2, if_pos hn2, hloc2]
      show pyOr none (enrich_from_detail (dw link1) (needLocation c1)
        (needRooms c1)).location_info = none
      rw [hnl1, (enrich_nlFalse (dw link1) (needRooms c1)).1]
      rfl
    · show (enrichedFields dw (processCard dw true p1 now1 st c1).2 c2
        link2).2.1 = none
      rw [hef]
      unfold backfill
      rw [if_pos hn2, if_pos hn2, hloc2]
      show pyOr none (enrich_from_detail (dw link1) (needLocation c1)
        (needRooms c1)).sector = none
      rw [hnl1, (enrich_nlFalse (dw link1) (needRooms c1)).2]
      rfl

/- ### Lifting the per-card facts through the page and run loops -/

theorem strContains_oferta_mem (link : Str)
    (h : strContains link ( "/oferta".data) = true) : 'o' ∈ link := by
  obtain ⟨p, s, hps⟩ := strContains_sound link ( "/oferta".data) h
  rw [hps]
  rw [List.mem_append, List.mem_append]
  exact Or.inr (Or.inl (by decide))

theorem listing_id_ne_some_nil (link : Str) (c0 : Char) (hc0 : c0 ∈ link)
    (hns : ¬c0 = '/') : listing_id_from_link (some link) ≠ some [] := by
  have hne : link ≠ [] := by
    intro hnil
    rw [hnil] at hc0
    exact List.not_mem_nil c0 hc0
  simp only [listing_id_from_link]
  rw [if_neg hne]
  cases hda : findDashIdHtml link with
  | some d =>
    obtain ⟨_, _, _, hd, _⟩ := findDashIdHtml_sound link d hda
    intro hcontra
    have h2 : some d = some ([] : Str) := hcontra
    cases h2
    exact hd rfl
  | none =>
    cases hip : findIdParam link with
    | some d =>
      obtain ⟨_, _, _, _, _, hd, _⟩ := findIdParam_sound link d hip
      intro hcontra
      have h2 : some d = some ([] : Str) := hcontra
      cases h2
      exact hd rfl
    | none =>
      intro hcontra
      have h2 : some ((lastSegment link).take 80) = some ([] : Str) := hcontra
      have h3 : (lastSegment link).take 80 = [] := Option.some.inj h2
      exact take_ne_nil_of_ne_nil 80 (lastSegment link) (by simp)
        (lastSegment_ne_nil link c0 hc0 hns) h3

theorem processCard_lid_ne (dw : Str → DetailWorld) (enable : Bool)
    (page_num : Nat) (now : Str) (st : ScrapeState) (c : Card) (r : Row)
    (h : (processCard dw enable page_num now st c).1 = some r) :
    r.listing_id ≠ some [] := by
  cases hl : extract_listing_link c with
  | none =>
    simp only [processCard, hl] at h
    exact Option.noConfusion h
  | some link =>
    simp only [processCard, hl] at h
    by_cases hg : (link.isEmpty || !strContains link ( "/oferta".data)) = true
    · rw [if_pos hg] at h
      exact Option.noConfusion h
    · rw [if_neg hg] at h
      have hcont : strContains link ( "/oferta".data) = true := by
        cases hb : strContains link ( "/oferta".data) with
        | true => rfl
        | false =>
          exfalso
          apply hg
          rw [Bool.or_eq_true]
          right
          rw [hb]
          rfl
      have hlid : listing_id_from_link (some link) ≠ some [] :=
        listing_id_ne_some_nil link 'o' (strContains_oferta_mem link hcont)
          (by decide)
      by_cases he : (enable && ((needLocation c || needRooms c) &&
          truthyStr (listing_id_from_link (some link)))) = true
      · rw [if_pos he] at h
        obtain ⟨hreq, _⟩ := finalizeRow_retain _ _ _ h
        rw [hreq]
        exact hlid
      · rw [if_neg he] at h
        obtain ⟨hreq, _⟩ := finalizeRow_retain _ _ _ h
        rw [hreq]
        exact hlid

theorem scrape_page_cards_mem (dw : Str → DetailWorld) (enable : Bool)
    (page_num : Nat) (now : Str) :
    ∀ (cards : List Card) (st : ScrapeState) (r : Row),
      r ∈ (scrape_page_cards dw enable page_num now st cards).1 →
      retainRow r = true ∧ r.listing_id ≠ some [] := by
  intro cards
  induction cards with
  | nil =>
    intro st r hr
    simp [scrape_page_cards] at hr
  | cons c rest ih =>
    intro st r hr
    simp only [scrape_page_cards] at hr
    cases ho : (processCard dw enable page_num now st c).1 with
    | some r0 =>
      rw [ho] at hr
      simp only [List.mem_cons] at hr
      rcases hr with hr | hr
      · subst hr
        exact ⟨processCard_some_retain dw enable page_num now st c r ho,
          processCard_lid_ne dw enable page_num now st c r ho⟩
      · exact ih _ r hr
    | none =>
      rw [ho] at hr
      exact ih _ r hr

theorem scrape_page_cards_invariant (dw : Str → DetailWorld) (enable : Bool)
    (page_num : Nat) (now : Str) :
    ∀ (cards : List Card) (st : ScrapeState), st.calls.Nodup →
      (∀ i, i ∈ st.calls → cacheLookup st.cache i ≠ none) →
      (scrape_page_cards dw enable page_num now st cards).2.calls.Nodup ∧
      ∀ i, i ∈ (scrape_page_cards dw enable page_num now st cards).2.calls →
        cacheLookup (scrape_page_cards dw enable page_num now st
          cards).2.cache i ≠ none := by
  intro cards
  induction cards with
  | nil =>
    intro st hnd hmem
    exact ⟨hnd, hmem⟩
  | cons c rest ih =>
    intro st hnd hmem
    have hstep := processCard_calls_invariant dw enable page_num now st c hnd
      hmem
    simp only [scrape_page_cards]
    exact ih _ hstep.1 hstep.2

theorem tryAttempts_mem (dw : Str → DetailWorld) (enable : Bool)
    (page_num : Nat) (now : Str) (jitter : Nat → Nat → Rat)
    (cardsAt : Nat → Option (List Card)) (st : ScrapeState) :
    ∀ (attempts : List Nat) (r : Row),
      r ∈ (tryAttempts dw enable page_num now jitter cardsAt st attempts).1 →
      retainRow r = true ∧ r.listing_id ≠ some [] := by
  intro attempts
  induction attempts with
  | nil =>
    intro r hr
    simp [tryAttempts] at hr
  | cons a rest ih =>
    intro r hr
    simp only [tryAttempts] at hr
    cases hca : cardsAt a with
    | some cards =>
      rw [hca] at hr
      exact scrape_page_cards_mem dw enable page_num now cards st r hr
    | none =>
      rw [hca] at hr
      exact ih r hr

theorem tryAttempts_invariant (dw : Str → DetailWorld) (enable : Bool)
    (page_num : Nat) (now : Str) (jitter : Nat → Nat → Rat)
    (cardsAt : Nat → Option (List Card)) (st : ScrapeState)
    (hnd : st.calls.Nodup)
    (hmem : ∀ i, i ∈ st.calls → cacheLookup st.cache i ≠ none) :
    ∀ attempts : List Nat,
      (tryAttempts dw enable page_num now jitter cardsAt st
        attempts).2.1.calls.Nodup ∧
      ∀ i, i ∈ (tryAttempts dw enable page_num now jitter cardsAt st
          attempts).2.1.calls →
        cacheLookup (tryAttempts dw enable page_num now jitter cardsAt st
          attempts).2.1.cache i ≠ none := by
  intro attempts
  induction attempts with
  | nil => exact ⟨hnd, hmem⟩
  | cons a rest ih =>
    simp only [tryAttempts]
    cases hca : cardsAt a with
    | some cards =>
      exact scrape_page_cards_invariant dw enable page_num now cards st hnd
        hmem
    | none => exact ih

theorem dedupRows_mem : ∀ (rows : List Row) (seen : List Str) (r : Row),
    r ∈ (dedupRows seen rows).1 → r ∈ rows := by
  intro rows
  induction rows with
  | nil =>
    intro seen r hr
    simp [dedupRows] at hr
  | cons r0 rest ih =>
    intro seen r hr
    simp only [dedupRows] at hr
    cases hrl : r0.listing_id with
    | some lid =>
      simp only [hrl] at hr
      by_cases hc : lid ≠ [] ∧ lid ∈ seen
      · rw [if_pos hc] at hr
        exact List.mem_cons_of_mem r0 (ih seen r hr)
      · rw [if_neg hc] at hr
        simp only [List.mem_cons] at hr
        rcases hr with hr | hr
        · exact hr ▸ List.mem_cons_self r0 rest
        · exact List.mem_cons_of_mem r0 (ih _ r hr)
    | none =>
      simp only [hrl] at hr
      simp only [List.mem_cons] at hr
      rcases hr with hr | hr
      · exact hr ▸ List.mem_cons_self r0 rest
      · exact List.mem_cons_of_mem r0 (ih seen r hr)

/-- Preservation of a predicate along the page loop. -/
theorem foldl_runStep_inv (dw : Str → DetailWorld) (enable : Bool)
    (now : Str) (jitter : Nat → Nat → Rat)
    (cardsAt : Nat → Nat → Option (List Card)) (P : RunState → Prop)
    (hstep : ∀ rs p, P rs → P (runStep dw enable now jitter cardsAt rs p)) :
    ∀ (l : List Nat) (rs : RunState), P rs →
      P (l.foldl (runStep dw enable now jitter cardsAt) rs) := by
  intro l
  induction l with
  | nil =>
    intro rs h
    exact h
  | cons p rest ih =>
    intro rs h
    exact ih _ (hstep rs p h)

/- ### C1: the retention invariant -/

/-- C1: every record appended to the output table satisfies the retention
invariant — its link is present (truthy) and at least one of title,
price_raw, location_info is present; and a card yielding only a link —
none of those three resolves from the card, and detail enrichment supplies
nothing (the cache is empty and every detail navigation fails) — produces
no output row.  (Enrichment runs before the retention test in the source,
so a card-level miss that enrichment fills does count as present.) -/
theorem retention_invariant :
    (∀ dw enable now jitter cardsAt maxPages r,
      r ∈ (runModel dw enable now jitter cardsAt maxPages).outRows →
      retainRow r = true) ∧
    (∀ dw enable page_num now st c,
      extract_title c = none → extract_price c = none →
      extract_location c = none → st.cache = [] →
      (∀ l, dw l = ⟨false, .raised, .raised⟩) →
      (processCard dw enable page_num now st c).1 = none) := by
  constructor
  · intro dw enable now jitter cardsAt maxPages r hr
    have hinv := foldl_runStep_inv dw enable now jitter cardsAt
      (fun rs => ∀ r, r ∈ rs.outRows → retainRow r = true)
      (by
        intro rs p hP r' hr'
        simp only [runStep] at hr'
        rw [List.mem_append] at hr'
        rcases hr' with hr' | hr'
        · exact hP r' hr'
        · have hmem := dedupRows_mem _ _ _ hr'
          exact (tryAttempts_mem dw enable p now jitter (cardsAt p) rs.scrape
            [1, 2, 3] r' hmem).1)
      (List.range' 1 maxPages) initRunState
      (by intro r' hr'; simp [initRunState] at hr')
    exact hinv r hr
  · intro dw enable page_num now st c htitle hprice hloc hcache hdw
    cases hl : extract_listing_link c with
    | none => simp only [processCard, hl]
    | some link =>
      simp only [processCard, hl]
      by_cases hg : (link.isEmpty || !strContains link ( "/oferta".data)) = true
      · rw [if_pos hg]
      · rw [if_neg hg]
        have hn : needLocation c = true := by
          unfold needLocation
          rw [hloc]
          rfl
        by_cases he : (enable && ((needLocation c || needRooms c) &&
            truthyStr (listing_id_from_link (some link)))) = true
        · rw [if_pos he]
          have hef1 : (enrichedFields dw st c link).1 = none := by
            unfold enrichedFields
            have hlk : cacheLookup st.cache
                ((listing_id_from_link (some link)).getD []) = none := by
              rw [hcache]
              rfl
            rw [cacheStep_miss dw st _ link _ _ hlk]
            rw [hdw link, enrich_navFalse _ _ _ rfl]
            unfold backfill
            rw [if_pos hn, hloc]
            rfl
          have hret : retainRow (buildRow (listing_id_from_link (some link))
              (extract_title c) (extract_price c)
              (enrichedFields dw st c link).1 (enrichedFields dw st c link).2.1
              (enrichedFields dw st c link).2.2 (cardArea c) link now
              page_num) = false := by
            simp [retainRow, buildRow, htitle, hprice, hef1, truthyStr]
          simp [finalizeRow, hret]
        · rw [if_neg he]
          have hret : retainRow (buildRow (listing_id_from_link (some link))
              (extract_title c) (extract_price c) (extract_location c)
              (extract_sector (extract_location c)) (cardRooms c) (cardArea c)
              link now page_num) = false := by
            simp [retainRow, buildRow, htitle, hprice, hloc, truthyStr]
          simp [finalizeRow, hret]

/-- Witness for C1: a one-page run appends `rowFull`, which satisfies the
invariant; `cardNoFields` (link only, failing enrichment) yields no row. -/
theorem retention_invariant_witness :
    (rowFull ∈ (runModel dwRooms true [] (fun _ _ => 0) cardsAt1 1).outRows ∧
      retainRow rowFull = true) ∧
    (extract_title cardNoFields = none ∧ extract_price cardNoFields = none ∧
      extract_location cardNoFields = none ∧
      (processCard dwFail true 1 [] ⟨[], []⟩ cardNoFields).1 = none) :=
  ⟨⟨by decide,
    retention_invariant.1 dwRooms true [] (fun _ _ => 0) cardsAt1 1 rowFull
      (by decide)⟩,
   by decide, by decide, by decide,
   retention_invariant.2 dwFail true 1 [] ⟨[], []⟩ cardNoFields (by decide)
     (by decide) (by decide) rfl (fun l => rfl)⟩

/- ### C3: at most one detail fetch per distinct listing id -/

/-- C3: over a whole run the call log of actual `enrich_from_detail`
invocations never repeats a listing id (at most one detail fetch per
distinct id); each per-card step either leaves the cache state unchanged or
performs exactly one fresh computation on an id not yet cached; and when
the id is already cached the step changes nothing — the cached result is
reused without invoking the compute path. -/
theorem enrichment_cache_at_most_once :
    (∀ dw enable now jitter cardsAt maxPages,
      (runModel dw enable now jitter cardsAt maxPages).scrape.calls.Nodup) ∧
    (∀ dw enable page_num now st c,
      (processCard dw enable page_num now st c).2 = st ∨
      ∃ link i, extract_listing_link c = some link ∧
        listing_id_from_link (some link) = some i ∧ i ≠ [] ∧
        cacheLookup st.cache i = none ∧
        (processCard dw enable page_num now st c).2 =
          ⟨st.cache ++
            [(i, enrich_from_detail (dw link) (needLocation c)
              (needRooms c))],
           st.calls ++ [i]⟩) ∧
    (∀ dw enable page_num now st c link i r,
      extract_listing_link c = some link →
      listing_id_from_link (some link) = some i →
      cacheLookup st.cache i = some r →
      (processCard dw enable page_num now st c).2 = st) := by
  refine ⟨?_, ?_, ?_⟩
  · intro dw enable now jitter cardsAt maxPages
    have hinv := foldl_runStep_inv dw enable now jitter cardsAt
      (fun rs => rs.scrape.calls.Nodup ∧
        ∀ i, i ∈ rs.scrape.calls → cacheLookup rs.scrape.cache i ≠ none)
      (by
        intro rs p hP
        simp only [runStep]
        exact tryAttempts_invariant dw enable p now jitter (cardsAt p)
          rs.scrape hP.1 hP.2 [1, 2, 3])
      (List.range' 1 maxPages) initRunState
      (by
        constructor
        · exact List.nodup_nil
        · intro i hi
          simp [initRunState] at hi)
    exact hinv.1
  · intro dw enable page_num now st c
    exact processCard_state_change dw enable page_num now st c
  · intro dw enable page_num now st c link i r hlink hlid hhit
    rcases processCard_state_change dw enable page_num now st c with h | h
    · exact h
    · obtain ⟨link', i', hlink', hlid', _, hmiss', _⟩ := h
      rw [hlink] at hlink'
      have hll : link = link' := Option.some.inj hlink'
      rw [← hll] at hlid'
      rw [hlid] at hlid'
      have hii : i = i' := Option.some.inj hlid'
      rw [← hii] at hmiss'
      rw [hhit] at hmiss'
      exact Option.noConfusion hmiss'

/-- Witness for C3: a second lookup of the already-cached id `77` leaves
the scrape state untouched. -/
theorem enrichment_cache_at_most_once_witness :
    extract_listing_link cardNoFields =
      some ( "https://www.storia.ro/oferta/apartament-77.html".data) ∧
    listing_id_from_link
      (some ( "https://www.storia.ro/oferta/apartament-77.html".data)) =
      some ( "77".data) ∧
    cacheLookup stCached.cache ( "77".data) = some cachedRes ∧
    (processCard dwFail true 1 [] stCached cardNoFields).2 = stCached :=
  ⟨by decide, by decide, by decide,
   enrichment_cache_at_most_once.2.2 dwFail true 1 [] stCached cardNoFields
     ( "https://www.storia.ro/oferta/apartament-77.html".data) ( "77".data)
     cachedRes (by decide) (by decide) (by decide)⟩

/- ### C4: run-wide deduplication -/

theorem filter_cons_pos' (p : Row → Bool) (a : Row) (l : List Row)
    (h : p a = true) : (a :: l).filter p = a :: l.filter p := by
  simp [List.filter_cons, h]

theorem filter_cons_neg' (p : Row → Bool) (a : Row) (l : List Row)
    (h : p a = false) : (a :: l).filter p = l.filter p := by
  simp [List.filter_cons, h]

/-- Characterization of the dedup loop: for a truthy id `i`, the survivors
carry exactly the first `i`-row unless `i` was already seen; rows with an
absent id all survive; the updated seen set is the old one plus the truthy
ids of the input rows. -/
theorem dedupRows_spec : ∀ (rows : List Row) (seen : List Str),
    (∀ r, r ∈ rows → r.listing_id ≠ some []) →
    (∀ i : Str, i ≠ [] →
      (dedupRows seen rows).1.filter (fun r => r.listing_id == some i) =
        if i ∈ seen then []
        else (rows.filter (fun r => r.listing_id == some i)).take 1) ∧
    ((dedupRows seen rows).1.filter (fun r => r.listing_id == none) =
      rows.filter (fun r => r.listing_id == none)) ∧
    (∀ i : Str, i ∈ (dedupRows seen rows).2 ↔
      i ∈ seen ∨ some i ∈ rows.map (fun r => r.listing_id)) := by
  intro rows
  induction rows with
  | nil =>
    intro seen _
    refine ⟨?_, rfl, ?_⟩
    · intro i _
      by_cases his : i ∈ seen
      · rw [if_pos his]
        rfl
      · rw [if_neg his]
        rfl
    · intro i
      simp [dedupRows]
  | cons r0 rest ih =>
    intro seen hyp
    have hyp0 : r0.listing_id ≠ some [] := hyp r0 (List.mem_cons_self r0 rest)
    have hyprest : ∀ r, r ∈ rest → r.listing_id ≠ some [] :=
      fun r hr => hyp r (List.mem_cons_of_mem r0 hr)
    cases hrl : r0.listing_id with
    | some lid =>
      have hlidne : lid ≠ [] := by
        intro hnil
        apply hyp0
        rw [hrl, hnil]
      by_cases hseen : lid ∈ seen
      · have hd : dedupRows seen (r0 :: rest) = dedupRows seen rest := by
          simp only [dedupRows, hrl]
          rw [if_pos ⟨hlidne, hseen⟩]
        obtain ⟨ih1, ih2, ih3⟩ := ih seen hyprest
        rw [hd]
        refine ⟨?_, ?_, ?_⟩
        · intro i hi
          rw [ih1 i hi]
          by_cases his : i ∈ seen
          · rw [if_pos his, if_pos his]
          · rw [if_neg his, if_neg his]
            have hpred : (r0.listing_id == some i) = false := by
              rw [hrl, beq_eq_false_iff_ne]
              intro hcontra
              exact his ((Option.some.inj hcontra) ▸ hseen)
            rw [filter_cons_neg' _ _ _ hpred]
        · rw [ih2]
          rw [filter_cons_neg' _ _ _ (by rw [hrl]; simp)]
        · intro i
          rw [ih3]
          constructor
          · rintro (h | h)
            · exact Or.inl h
            · exact Or.inr (by rw [List.map_cons]; exact List.mem_cons_of_mem _ h)
          · rintro (h | h)
            · exact Or.inl h
            · rw [List.map_cons, List.mem_cons] at h
              rcases h with h | h
              · rw [hrl] at h
                have hi2 : i = lid := Option.some.inj h
                exact Or.inl (hi2 ▸ hseen)
              · exact Or.inr h
      · have hd : dedupRows seen (r0 :: rest) =
            (r0 :: (dedupRows (lid :: seen) rest).1,
             (dedupRows (lid :: seen) rest).2) := by
          simp only [dedupRows, hrl]
          rw [if_neg (fun hc => hseen hc.2), if_pos hlidne]
        obtain ⟨ih1, ih2, ih3⟩ := ih (lid :: seen) hyprest
        rw [hd]
        refine ⟨?_, ?_, ?_⟩
        · intro i hi
          by_cases hil : i = lid
          · subst hil
            rw [if_neg hseen]
            have hpred : (r0.listing_id == some i) = true := by
              rw [hrl]
              simp
            rw [filter_cons_pos' _ _ _ hpred, filter_cons_pos' _ _ _ hpred]
            rw [ih1 i hi, if_pos (List.mem_cons_self i seen)]
            simp
          · have hpred : (r0.listing_id == some i) = false := by
              rw [hrl, beq_eq_false_iff_ne]
              intro hcontra
              exact hil (Option.some.inj hcontra).symm
            rw [filter_cons_neg' _ _ _ hpred, filter_cons_neg' _ _ _ hpred]
            rw [ih1 i hi]
            by_cases his : i ∈ seen
            · rw [if_pos (List.mem_cons_of_mem lid his), if_pos his]
            · rw [if_neg ?_, if_neg his]
              intro hc
              rw [List.mem_cons] at hc
              rcases hc with hc | hc
              · exact hil hc
              · exact his hc
        · rw [filter_cons_neg' _ _ _ (by rw [hrl]; simp),
            filter_cons_neg' _ _ _ (by rw [hrl]; simp)]
          exact ih2
        · intro i
          rw [ih3, List.map_cons, List.mem_cons, List.mem_cons, hrl]
          constructor
          · rintro ((h | h) | h)
            · exact Or.inr (Or.inl (by rw [h]))
            · exact Or.inl h
            · exact Or.inr (Or.inr h)
          · rintro (h | (h | h))
            · exact Or.inl (Or.inr h)
            · exact Or.inl (Or.inl (Option.some.inj h))
            · exact Or.inr h
    | none =>
      have hd : dedupRows seen (r0 :: rest) =
          (r0 :: (dedupRows seen rest).1, (dedupRows seen rest).2) := by
        simp only [dedupRows, hrl]
      obtain ⟨ih1, ih2, ih3⟩ := ih seen hyprest
      rw [hd]
      refine ⟨?_, ?_, ?_⟩
      · intro i hi
        rw [filter_cons_neg' _ _ _ (by rw [hrl]; simp),
          filter_cons_neg' _ _ _ (by rw [hrl]; simp)]
        exact ih1 i hi
      · rw [filter_cons_pos' _ _ _ (by rw [hrl]; simp),
          filter_cons_pos' _ _ _ (by rw [hrl]; simp)]
        rw [ih2]
      · intro i
        rw [ih3, List.map_cons, List.mem_cons, hrl]
        constructor
        · rintro (h | h)
          · exact Or.inl h
          · exact Or.inr (Or.inr h)
        · rintro (h | (h | h))
          · exact Or.inl h
          · exact Option.noConfusion h
          · exact Or.inr h

theorem mem_map_iff_filter_ne_nil (l : List Row) (i : Str) :
    some i ∈ l.map (fun r => r.listing_id) ↔
      l.filter (fun r => r.listing_id == some i) ≠ [] := by
  rw [List.mem_map]
  constructor
  · rintro ⟨r, hr, hid⟩
    intro hnil
    rw [List.filter_eq_nil_iff] at hnil
    exact hnil r hr (by simp [hid])
  · intro hne
    cases hf : l.filter (fun r => r.listing_id == some i) with
    | nil => exact absurd hf hne
    | cons x xs =>
      have hx : x ∈ l.filter (fun r => r.listing_id == some i) := by
        rw [hf]
        exact List.mem_cons_self x xs
      have hmf := List.mem_filter.mp hx
      exact ⟨x, hmf.1, by simpa using hmf.2⟩

/-- C4: among all rows produced across all pages of a run, the survivors
appended to the output table are, for each nonempty listing id, exactly the
first produced row with that id (later ones are dropped before appending),
and all rows with an absent listing id; moreover no produced row carries an
empty-string id, so "truthy id" and "present id" coincide. -/
theorem run_dedup_spec (dw : Str → DetailWorld) (enable : Bool) (now : Str)
    (jitter : Nat → Nat → Rat) (cardsAt : Nat → Nat → Option (List Card))
    (maxPages : Nat) :
    (∀ i : Str, i ≠ [] →
      (runModel dw enable now jitter cardsAt maxPages).outRows.filter
          (fun r => r.listing_id == some i) =
        ((runModel dw enable now jitter cardsAt maxPages).produced.filter
          (fun r => r.listing_id == some i)).take 1) ∧
    ((runModel dw enable now jitter cardsAt maxPages).outRows.filter
        (fun r => r.listing_id == none) =
      (runModel dw enable now jitter cardsAt maxPages).produced.filter
        (fun r => r.listing_id == none)) ∧
    (∀ r, r ∈ (runModel dw enable now jitter cardsAt maxPages).produced →
      r.listing_id ≠ some []) := by
  have hinv := foldl_runStep_inv dw enable now jitter cardsAt
    (fun rs =>
      (∀ i : Str, i ≠ [] →
        rs.outRows.filter (fun r => r.listing_id == some i) =
          (rs.produced.filter (fun r => r.listing_id == some i)).take 1) ∧
      (rs.outRows.filter (fun r => r.listing_id == none) =
        rs.produced.filter (fun r => r.listing_id == none)) ∧
      (∀ i : Str, i ∈ rs.seen_ids ↔
        some i ∈ rs.produced.map (fun r => r.listing_id)) ∧
      (∀ r, r ∈ rs.produced → r.listing_id ≠ some []))
    ?step (List.range' 1 maxPages) initRunState ?init
  case step =>
    intro rs p hP
    obtain ⟨P1, P2, P3, P4⟩ := hP
    have hrowsne : ∀ r,
        r ∈ (pageAttempt dw enable now jitter cardsAt rs p).1 →
        r.listing_id ≠ some [] :=
      fun r hr => (tryAttempts_mem dw enable p now jitter (cardsAt p)
        rs.scrape [1, 2, 3] r hr).2
    obtain ⟨D1, D2, D3⟩ := dedupRows_spec
      (pageAttempt dw enable now jitter cardsAt rs p).1 rs.seen_ids hrowsne
    refine ⟨?_, ?_, ?_, ?_⟩
    · intro i hi
      simp only [runStep]
      rw [List.filter_append, List.filter_append, P1 i hi, D1 i hi]
      by_cases hmem : some i ∈ rs.produced.map (fun r => r.listing_id)
      · have hseen : i ∈ rs.seen_ids := (P3 i).mpr hmem
        rw [if_pos hseen]
        have hfne := (mem_map_iff_filter_ne_nil rs.produced i).mp hmem
        cases hf : rs.produced.filter (fun r => r.listing_id == some i) with
        | nil => exact absurd hf hfne
        | cons x xs => simp
      · have hseen : i ∉ rs.seen_ids := fun hc => hmem ((P3 i).mp hc)
        rw [if_neg hseen]
        have hfnil : rs.produced.filter (fun r => r.listing_id == some i) = [] := by
          by_contra hne
          exact hmem ((mem_map_iff_filter_ne_nil rs.produced i).mpr hne)
        rw [hfnil]
        simp
    · simp only [runStep]
      rw [List.filter_append, List.filter_append, P2, D2]
    · intro i
      simp only [runStep]
      rw [D3 i, P3 i, List.map_append, List.mem_append]
    · intro r hr
      simp only [runStep] at hr
      rw [List.mem_append] at hr
      rcases hr with hr | hr
      · exact P4 r hr
      · exact hrowsne r hr
  case init =>
    refine ⟨?_, rfl, ?_, ?_⟩
    · intro i _
      rfl
    · intro i
      simp [initRunState]
    · intro r hr
      simp [initRunState] at hr
  exact ⟨hinv.1, hinv.2.1, hinv.2.2.2⟩

/- ### C8: per-page retry with backoff, exhaustion non-fatal -/

/-- The event trace only grows along the page loop. -/
theorem trace_monotone (dw : Str → DetailWorld) (enable : Bool) (now : Str)
    (jitter : Nat → Nat → Rat) (cardsAt : Nat → Nat → Option (List Card)) :
    ∀ (l : List Nat) (rs : RunState) (e : Event), e ∈ rs.trace →
      e ∈ (l.foldl (runStep dw enable now jitter cardsAt) rs).trace := by
  intro l
  induction l with
  | nil =>
    intro rs e he
    exact he
  | cons q rest ih =>
    intro rs e he
    apply ih
    simp only [runStep]
    rw [List.mem_append, List.mem_append]
    exact Or.inl (Or.inl he)

/-- Every page processed by the loop emits its append event. -/
theorem foldl_save_event (dw : Str → DetailWorld) (enable : Bool) (now : Str)
    (jitter : Nat → Nat → Rat) (cardsAt : Nat → Nat → Option (List Card)) :
    ∀ (l : List Nat) (rs : RunState) (p : Nat), p ∈ l →
      ∃ added, Event.save p added ∈
        (l.foldl (runStep dw enable now jitter cardsAt) rs).trace := by
  intro l
  induction l with
  | nil =>
    intro rs p hp
    exact absurd hp (List.not_mem_nil p)
  | cons q rest ih =>
    intro rs p hp
    rw [List.mem_cons] at hp
    rcases hp with hp | hp
    · subst hp
      refine ⟨(dedupRows rs.seen_ids
        (pageAttempt dw enable now jitter cardsAt rs p).1).1.length, ?_⟩
      have hstep : Event.save p (dedupRows rs.seen_ids
          (pageAttempt dw enable now jitter cardsAt rs p).1).1.length ∈
          (runStep dw enable now jitter cardsAt rs p).trace := by
        simp only [runStep]
        rw [List.mem_append]
        exact Or.inr (by simp)
      have hred : (p :: rest).foldl (runStep dw enable now jitter cardsAt) rs =
          rest.foldl (runStep dw enable now jitter cardsAt)
            (runStep dw enable now jitter cardsAt rs p) := rfl
      rw [hred]
      exact trace_monotone dw enable now jitter cardsAt rest _ _ hstep
    · exact ih _ p hp

/-- C8: each page is attempted up to 3 times; a failed attempt logs the
failure and then a backoff sleep of `2*attempt + jitter` seconds; the first
successful attempt runs the page scrape and stops retrying; after 3 failed
attempts the page contributes no rows and an unchanged scrape state
(whatever was last obtained — nothing), and in every case the run proceeds
to dedup/append: every page of the run emits its append event, so
exhaustion of one page never aborts the run. -/
theorem retry_backoff_spec (dw : Str → DetailWorld) (enable : Bool)
    (now : Str) (jitter : Nat → Nat → Rat)
    (cardsAt : Nat → Nat → Option (List Card)) (maxPages : Nat) :
    (∀ p st, cardsAt p 1 = none → cardsAt p 2 = none → cardsAt p 3 = none →
      tryAttempts dw enable p now jitter (cardsAt p) st [1, 2, 3] =
        ([], st,
         [Event.attemptFail p 1,
          Event.retrySleep p 1 (retryDelay 1 (jitter p 1)),
          Event.attemptFail p 2,
          Event.retrySleep p 2 (retryDelay 2 (jitter p 2)),
          Event.attemptFail p 3,
          Event.retrySleep p 3 (retryDelay 3 (jitter p 3))])) ∧
    (∀ p st cards, cardsAt p 1 = some cards →
      tryAttempts dw enable p now jitter (cardsAt p) st [1, 2, 3] =
        ((scrape_page_cards dw enable p now st cards).1,
         (scrape_page_cards dw enable p now st cards).2,
         [Event.attemptOk p 1])) ∧
    (∀ p st cards, cardsAt p 1 = none → cardsAt p 2 = some cards →
      tryAttempts dw enable p now jitter (cardsAt p) st [1, 2, 3] =
        ((scrape_page_cards dw enable p now st cards).1,
         (scrape_page_cards dw enable p now st cards).2,
         [Event.attemptFail p 1,
          Event.retrySleep p 1 (retryDelay 1 (jitter p 1)),
          Event.attemptOk p 2])) ∧
    (∀ p st cards, cardsAt p 1 = none → cardsAt p 2 = none →
      cardsAt p 3 = some cards →
      tryAttempts dw enable p now jitter (cardsAt p) st [1, 2, 3] =
        ((scrape_page_cards dw enable p now st cards).1,
         (scrape_page_cards dw enable p now st cards).2,
         [Event.attemptFail p 1,
          Event.retrySleep p 1 (retryDelay 1 (jitter p 1)),
          Event.attemptFail p 2,
          Event.retrySleep p 2 (retryDelay 2 (jitter p 2)),
          Event.attemptOk p 3])) ∧
    (∀ p, p ∈ List.range' 1 maxPages →
      ∃ added, Event.save p added ∈
        (runModel dw enable now jitter cardsAt maxPages).trace) := by
  refine ⟨?_, ?_, ?_, ?_, ?_⟩
  · intro p st h1 h2 h3
    simp only [tryAttempts, h1, h2, h3]
  · intro p st cards h1
    simp only [tryAttempts, h1]
  · intro p st cards h1 h2
    simp only [tryAttempts, h1, h2]
  · intro p st cards h1 h2 h3
    simp only [tryAttempts, h1, h2, h3]
  · intro p hp
    exact foldl_save_event dw enable now jitter cardsAt
      (List.range' 1 maxPages) initRunState p hp

/-- Witness for C8: a page failing all 3 attempts yields no rows, an
unchanged state and the six failure/backoff events; a page succeeding on
attempt 1 scrapes immediately; and page 1 of a one-page run emits its
append event. -/
theorem retry_backoff_spec_witness :
    (tryAttempts dwFail true 1 [] (fun _ _ => 0) (cardsAtFail 1) ⟨[], []⟩
        [1, 2, 3] =
      ([], ⟨[], []⟩,
       [Event.attemptFail 1 1, Event.retrySleep 1 1 (retryDelay 1 0),
        Event.attemptFail 1 2, Event.retrySleep 1 2 (retryDelay 2 0),
        Event.attemptFail 1 3, Event.retrySleep 1 3 (retryDelay 3 0)])) ∧
    (tryAttempts dwRooms true 1 [] (fun _ _ => 0) (cardsAt1 1) ⟨[], []⟩
        [1, 2, 3] =
      ((scrape_page_cards dwRooms true 1 [] ⟨[], []⟩ [cardFull]).1,
       (scrape_page_cards dwRooms true 1 [] ⟨[], []⟩ [cardFull]).2,
       [Event.attemptOk 1 1])) ∧
    (∃ added, Event.save 1 added ∈
      (runModel dwRooms true [] (fun _ _ => 0) cardsAt1 1).trace) :=
  ⟨(retry_backoff_spec dwFail true [] (fun _ _ => 0) cardsAtFail 1).1 1
     ⟨[], []⟩ rfl rfl rfl,
   (retry_backoff_spec dwRooms true [] (fun _ _ => 0) cardsAt1 1).2.1 1
     ⟨[], []⟩ [cardFull] rfl,
   (retry_backoff_spec dwRooms true [] (fun _ _ => 0) cardsAt1 1).2.2.2.2 1
     (by decide)⟩

/-- Witness for C4: feeding the same listing id on two pages keeps exactly
the first produced row (2 produced, 1 appended). -/
theorem run_dedup_spec_witness :
    ( "77".data ≠ ([] : Str)) ∧
    (runModel dwRooms true [] (fun _ _ => 0) cardsAt2 2).outRows.filter
        (fun r => r.listing_id == some ( "77".data)) =
      ((runModel dwRooms true [] (fun _ _ => 0) cardsAt2 2).produced.filter
        (fun r => r.listing_id == some ( "77".data))).take 1 ∧
    (runModel dwRooms true [] (fun _ _ => 0) cardsAt2 2).outRows.length = 1 ∧
    (runModel dwRooms true [] (fun _ _ => 0) cardsAt2 2).produced.length = 2 :=
  ⟨by decide,
   (run_dedup_spec dwRooms true [] (fun _ _ => 0) cardsAt2 2).1 ( "77".data)
     (by decide),
   by decide, by decide⟩

/-- Witness for C9: `cardFull` resolves a title, location and sector but no
room count; enrichment (via `dwRooms`) fills only the room count, leaving
every card-resolved field intact. -/
theorem processCard_enrichment_frame_witness :
    (processCard dwRooms true 1 [] ⟨[], []⟩ cardFull).1 = some rowFull ∧
    (rowFull.Property_Title = extract_title cardFull ∧
     rowFull.Price_Raw = extract_price cardFull ∧
     rowFull.Area_m2 = cardArea cardFull ∧
     rowFull.Link = extract_listing_link cardFull ∧
     (rowFull.Location_Info = extract_location cardFull ∨
       extract_location cardFull = none) ∧
     (rowFull.Sector = extract_sector (extract_location cardFull) ∨
       extract_sector (extract_location cardFull) = none) ∧
     (rowFull.Room_Number = cardRooms cardFull ∨ cardRooms cardFull = none)) :=
  ⟨by decide,
   processCard_enrichment_frame dwRooms true 1 [] ⟨[], []⟩ cardFull rowFull
     (by decide)⟩

/-- Witness for C10: `cardFull` (location resolved, rooms missing) fetches
with `need_location = false`; `cardTitleOnly` on the same id hits the cache
with no second fetch, and its record's location and sector stay absent. -/
theorem cached_flags_of_first_card_witness :
    needLocation cardFull = false ∧ needRooms cardFull = true ∧
    extract_location cardTitleOnly = none ∧
    (processCard dwRooms true 1 [] ⟨[], []⟩ cardFull).2.calls =
      [( "77".data)] ∧
    cacheLookup (processCard dwRooms true 1 [] ⟨[], []⟩ cardFull).2.cache
        ( "77".data) =
      some (enrich_from_detail
        (dwRooms ( "https://www.storia.ro/oferta/apartament-77.html".data))
        (needLocation cardFull) (needRooms cardFull)) ∧
    (processCard dwRooms true 2 []
        (processCard dwRooms true 1 [] ⟨[], []⟩ cardFull).2 cardTitleOnly).2 =
      (processCard dwRooms true 1 [] ⟨[], []⟩ cardFull).2 ∧
    (rowTitleOnly.Location_Info = none ∧ rowTitleOnly.Sector = none) :=
  have hmain := cached_flags_of_first_card dwRooms 1 2 [] [] ⟨[], []⟩
    cardFull cardTitleOnly
    ( "https://www.storia.ro/oferta/apartament-77.html".data)
    ( "https://www.storia.ro/oferta/apartament-77.html".data) ( "77".data)
    (by decide) (by decide) (by decide) (by decide) (by decide) (by decide)
    (by decide) (by decide) (by decide) rfl (by decide)
  ⟨by decide, by decide, by decide, hmain.1, hmain.2.1, hmain.2.2.1,
   hmain.2.2.2 (by decide) (by decide) rowTitleOnly (by decide)⟩
